import Mathlib

/-!
Verification of the Turn Orchestrator core of the voice-ai-agent repository.

This file shallowly embeds the orchestrator pipeline of the repository:
`src/llm/hybrid_llm.py` (action extraction, JSON repair, provider fallback,
placeholder resolution), `src/core/rule_processor.py` (rule routing),
`src/core/context_manager.py` (conversation-state pruning) and
`src/core/agent.py` (turn flow and tool dispatch).  Python strings are
modelled as `List Char`, dictionaries as association lists with Python's
insert-or-overwrite-in-place semantics, raised exceptions as `Except`, and
`json.loads` / `json.dumps` as an executable JSON parser / printer
(restricted to integer numerals and ASCII whitespace, which covers every
construct the orchestrator emits or consumes in the verified claims).
-/

set_option autoImplicit false
set_option maxRecDepth 100000

namespace VoiceAgent

/-! ### Python character classes and basic string helpers -/

/-- Python `\s` (ASCII part) and the character class used by `str.strip()`. -/
def isPyWs (c : Char) : Bool :=
  c = ' ' || c = '\t' || c = '\n' || c = '\r' || c = '\x0b' || c = '\x0c'

/-- The whitespace accepted between JSON tokens by `json.loads`. -/
def isJsonWs (c : Char) : Bool :=
  c = ' ' || c = '\t' || c = '\n' || c = '\r'

def isDigitC (c : Char) : Bool := '0' ≤ c && c ≤ '9'

/-- Python `[a-zA-Z0-9]`. -/
def isAlnumADigit (c : Char) : Bool :=
  ('0' ≤ c && c ≤ '9') || ('a' ≤ c && c ≤ 'z') || ('A' ≤ c && c ≤ 'Z')

/-- `str.strip()` (ASCII-whitespace model). -/
def pstrip (s : List Char) : List Char :=
  ((s.dropWhile isPyWs).reverse.dropWhile isPyWs).reverse

/-- `str.lower()` (ASCII model; non-ASCII characters are unchanged). -/
def pylower (s : List Char) : List Char :=
  s.map Char.toLower

/-- Substring test, Python `needle in haystack`. -/
def isSubstr (needle : List Char) : List Char → Bool
  | [] => needle.isEmpty
  | c :: t => needle.isPrefixOf (c :: t) || isSubstr needle t

/-- `str.endswith('}')`. -/
def endsWithChar (c : Char) (s : List Char) : Bool :=
  match s.getLast? with
  | some d => d = c
  | none => false

def countChar (c : Char) (s : List Char) : Nat :=
  s.countP (· = c)

/-- Digits of a natural number, most significant first. -/
def natDigits (fuel : Nat) (n : Nat) : List Char :=
  match fuel with
  | 0 => []
  | fuel + 1 =>
    if n < 10 then [Char.ofNat (48 + n)]
    else natDigits fuel (n / 10) ++ [Char.ofNat (48 + n % 10)]

/-- Python `str(n)` for an integer. -/
def intStr (n : Int) : List Char :=
  if n < 0 then '-' :: natDigits (n.natAbs + 1) n.natAbs
  else natDigits (n.natAbs + 1) n.natAbs

/-- Value of a digit run (used by `int(...)` on a `\d+` capture). -/
def digitsVal (ds : List Char) : Nat :=
  ds.foldl (fun acc c => acc * 10 + (c.toNat - 48)) 0

/-! ### The JSON data model (`json.loads` / `json.dumps`)

JSON values as produced by Python's `json` module: objects are
insertion-ordered dictionaries (duplicate keys keep the first position and
the last value).  Numbers are restricted to integers: every number the
orchestrator itself produces or repairs (`max_results` counts) is an
integer, and a narrower parser only sends more malformed fragments down
the repair ladder, which is the behaviour under verification. -/

inductive Json where
  | null : Json
  | bool : Bool → Json
  | num : Int → Json
  | str : List Char → Json
  | arr : List Json → Json
  | obj : List (List Char × Json) → Json

mutual

def Json.decEq : (a b : Json) → Decidable (a = b)
  | .null, .null => isTrue rfl
  | .bool a, .bool b =>
    if h : a = b then isTrue (h ▸ rfl)
    else isFalse (fun he => h (Json.bool.inj he))
  | .num a, .num b =>
    if h : a = b then isTrue (h ▸ rfl)
    else isFalse (fun he => h (Json.num.inj he))
  | .str a, .str b =>
    if h : a = b then isTrue (h ▸ rfl)
    else isFalse (fun he => h (Json.str.inj he))
  | .arr a, .arr b =>
    match Json.decEqList a b with
    | isTrue h => isTrue (h ▸ rfl)
    | isFalse h => isFalse (fun he => h (Json.arr.inj he))
  | .obj a, .obj b =>
    match Json.decEqKVs a b with
    | isTrue h => isTrue (h ▸ rfl)
    | isFalse h => isFalse (fun he => h (Json.obj.inj he))
  | .null, .bool _ | .null, .num _ | .null, .str _ | .null, .arr _ | .null, .obj _
  | .bool _, .null | .bool _, .num _ | .bool _, .str _ | .bool _, .arr _ | .bool _, .obj _
  | .num _, .null | .num _, .bool _ | .num _, .str _ | .num _, .arr _ | .num _, .obj _
  | .str _, .null | .str _, .bool _ | .str _, .num _ | .str _, .arr _ | .str _, .obj _
  | .arr _, .null | .arr _, .bool _ | .arr _, .num _ | .arr _, .str _ | .arr _, .obj _
  | .obj _, .null | .obj _, .bool _ | .obj _, .num _ | .obj _, .str _ | .obj _, .arr _ =>
    isFalse (by intro h; exact Json.noConfusion h)

def Json.decEqList : (a b : List Json) → Decidable (a = b)
  | [], [] => isTrue rfl
  | x :: xs, y :: ys =>
    match Json.decEq x y with
    | isTrue h1 =>
      match Json.decEqList xs ys with
      | isTrue h2 => isTrue (h1 ▸ h2 ▸ rfl)
      | isFalse h2 => isFalse (fun he => h2 (List.cons.inj he).2)
    | isFalse h1 => isFalse (fun he => h1 (List.cons.inj he).1)
  | [], _ :: _ => isFalse (fun he => List.noConfusion he)
  | _ :: _, [] => isFalse (fun he => List.noConfusion he)

def Json.decEqKVs : (a b : List (List Char × Json)) → Decidable (a = b)
  | [], [] => isTrue rfl
  | (k1, v1) :: xs, (k2, v2) :: ys =>
    if hk : k1 = k2 then
      match Json.decEq v1 v2 with
      | isTrue hv =>
        match Json.decEqKVs xs ys with
        | isTrue ht => isTrue (hk ▸ hv ▸ ht ▸ rfl)
        | isFalse ht => isFalse (fun he => ht (List.cons.inj he).2)
      | isFalse hv =>
        isFalse (fun he => hv (congrArg Prod.snd (List.cons.inj he).1))
    else
      isFalse (fun he => hk (congrArg Prod.fst (List.cons.inj he).1))
  | [], _ :: _ => isFalse (fun he => List.noConfusion he)
  | _ :: _, [] => isFalse (fun he => List.noConfusion he)

end

instance : DecidableEq Json := Json.decEq

/-- Python dict insertion: overwrite in place if the key exists, else append. -/
def insertKV (kvs : List (List Char × Json)) (k : List Char) (v : Json) :
    List (List Char × Json) :=
  match kvs with
  | [] => [(k, v)]
  | (k0, v0) :: rest =>
    if k0 = k then (k0, v) :: rest else (k0, v0) :: insertKV rest k v

def lookupKV (kvs : List (List Char × Json)) (k : List Char) : Option Json :=
  match kvs with
  | [] => none
  | (k0, v0) :: rest => if k0 = k then some v0 else lookupKV rest k

/-- Python truthiness of a JSON value. -/
def jTruthy (j : Json) : Bool :=
  match j with
  | .null => false
  | .bool b => b
  | .num n => !(n = 0 : Bool)
  | .str s => !s.isEmpty
  | .arr xs => !xs.isEmpty
  | .obj kvs => !kvs.isEmpty

/-! ### `json.loads` -/

def dropJWs (s : List Char) : List Char := s.dropWhile isJsonWs

def hexVal (c : Char) : Option Nat :=
  if '0' ≤ c && c ≤ '9' then some (c.toNat - 48)
  else if 'a' ≤ c && c ≤ 'f' then some (c.toNat - 87)
  else if 'A' ≤ c && c ≤ 'F' then some (c.toNat - 55)
  else none

/-- Body of a JSON string, positioned right after the opening quote.
Control characters are rejected (`json.loads` strict mode); the usual
escapes and non-surrogate `\uXXXX` escapes are handled. -/
def parseJStrBody : Nat → List Char → Option (List Char × List Char)
  | 0, _ => none
  | _, [] => none
  | fuel + 1, c :: rest =>
    if c = '"' then some ([], rest)
    else if c = '\\' then
      match rest with
      | [] => none
      | e :: r2 =>
        if e = '"' then (parseJStrBody fuel r2).map (fun p => ('"' :: p.1, p.2))
        else if e = '\\' then (parseJStrBody fuel r2).map (fun p => ('\\' :: p.1, p.2))
        else if e = '/' then (parseJStrBody fuel r2).map (fun p => ('/' :: p.1, p.2))
        else if e = 'b' then (parseJStrBody fuel r2).map (fun p => ('\x08' :: p.1, p.2))
        else if e = 'f' then (parseJStrBody fuel r2).map (fun p => ('\x0c' :: p.1, p.2))
        else if e = 'n' then (parseJStrBody fuel r2).map (fun p => ('\n' :: p.1, p.2))
        else if e = 'r' then (parseJStrBody fuel r2).map (fun p => ('\r' :: p.1, p.2))
        else if e = 't' then (parseJStrBody fuel r2).map (fun p => ('\t' :: p.1, p.2))
        else if e = 'u' then
          match r2 with
          | h1 :: h2 :: h3 :: h4 :: r3 =>
            match hexVal h1, hexVal h2, hexVal h3, hexVal h4 with
            | some a, some b, some c3, some d =>
              let n := ((a * 16 + b) * 16 + c3) * 16 + d
              if n < 0xd800 then
                (parseJStrBody fuel r3).map (fun p => (Char.ofNat n :: p.1, p.2))
              else none
            | _, _, _, _ => none
          | _ => none
        else none
    else if c.toNat < 0x20 then none
    else (parseJStrBody fuel rest).map (fun p => (c :: p.1, p.2))

/-- A JSON number at the head of the input.  Only integer numerals are
accepted in this model; a fractional or exponent part fails the parse. -/
def parseJNum (s : List Char) : Option (Int × List Char) :=
  let neg := s.head? = some '-'
  let s1 := if neg then s.drop 1 else s
  match s1.head? with
  | some c =>
    if isDigitC c then
      let ds := s1.takeWhile isDigitC
      let rest := s1.drop ds.length
      if 1 < ds.length && ds.head? = some '0' then none
      else
        match rest.head? with
        | some '.' => none
        | some 'e' => none
        | some 'E' => none
        | _ =>
          some ((if neg then -(digitsVal ds : Int) else (digitsVal ds : Int)), rest)
    else none
  | none => none

mutual

/-- A JSON value at the head of the input (no leading whitespace). -/
def parseValue : Nat → List Char → Option (Json × List Char)
  | 0, _ => none
  | fuel + 1, s =>
    match s with
    | [] => none
    | c :: r =>
      if c = '{' then
        match parseObjBody fuel (dropJWs r) with
        | some (kvs, rest) => some (.obj kvs, rest)
        | none => none
      else if c = '[' then
        match parseArrBody fuel (dropJWs r) with
        | some (xs, rest) => some (.arr xs, rest)
        | none => none
      else if c = '"' then
        (parseJStrBody (r.length + 1) r).map (fun p => (.str p.1, p.2))
      else if c = 't' then
        if ['r', 'u', 'e'].isPrefixOf r then some (.bool true, r.drop 3) else none
      else if c = 'f' then
        if ['a', 'l', 's', 'e'].isPrefixOf r then some (.bool false, r.drop 4) else none
      else if c = 'n' then
        if ['u', 'l', 'l'].isPrefixOf r then some (.null, r.drop 3) else none
      else if c = '-' || isDigitC c then
        (parseJNum s).map (fun p => (.num p.1, p.2))
      else none

/-- Object body, positioned after the opening brace and whitespace. -/
def parseObjBody : Nat → List Char → Option (List (List Char × Json) × List Char)
  | 0, _ => none
  | fuel + 1, s =>
    match s with
    | '}' :: rest => some ([], rest)
    | _ => parseMembers fuel s []

/-- Object members, positioned at the opening quote of the next key. -/
def parseMembers : Nat → List Char → List (List Char × Json) →
    Option (List (List Char × Json) × List Char)
  | 0, _, _ => none
  | fuel + 1, s, acc =>
    match s with
    | '"' :: r =>
      match parseJStrBody (r.length + 1) r with
      | some (k, r1) =>
        match dropJWs r1 with
        | ':' :: r2 =>
          match parseValue fuel (dropJWs r2) with
          | some (v, r3) =>
            match dropJWs r3 with
            | ',' :: r4 => parseMembers fuel (dropJWs r4) (insertKV acc k v)
            | '}' :: r4 => some (insertKV acc k v, r4)
            | _ => none
          | none => none
        | _ => none
      | none => none
    | _ => none

/-- Array body, positioned after the opening bracket and whitespace. -/
def parseArrBody : Nat → List Char → Option (List Json × List Char)
  | 0, _ => none
  | fuel + 1, s =>
    match s with
    | ']' :: rest => some ([], rest)
    | _ => parseElems fuel s

def parseElems : Nat → List Char → Option (List Json × List Char)
  | 0, _ => none
  | fuel + 1, s =>
    match parseValue fuel s with
    | some (v, r) =>
      match dropJWs r with
      | ',' :: r2 => (parseElems fuel (dropJWs r2)).map (fun p => (v :: p.1, p.2))
      | ']' :: r2 => some ([v], r2)
      | _ => none
    | none => none

end

/-- `json.loads`: parse one value, then only trailing whitespace may remain. -/
def loads (s : List Char) : Option Json :=
  match parseValue (4 * s.length + 8) (dropJWs s) with
  | some (v, rest) => if (dropJWs rest).isEmpty then some v else none
  | none => none

/-! ### `json.dumps` (default separators, `ensure_ascii=False`) -/

def hexDigitChar (n : Nat) : Char :=
  if n < 10 then Char.ofNat (48 + n) else Char.ofNat (87 + n)

def escapeJChar (c : Char) : List Char :=
  if c = '"' then ['\\', '"']
  else if c = '\\' then ['\\', '\\']
  else if c = '\n' then ['\\', 'n']
  else if c = '\t' then ['\\', 't']
  else if c = '\r' then ['\\', 'r']
  else if c = '\x08' then ['\\', 'b']
  else if c = '\x0c' then ['\\', 'f']
  else if c.toNat < 0x20 then
    ['\\', 'u', '0', '0', hexDigitChar (c.toNat / 16), hexDigitChar (c.toNat % 16)]
  else [c]

def escapeJStr (s : List Char) : List Char :=
  s.foldr (fun c acc => escapeJChar c ++ acc) []

mutual

def dumps : Json → List Char
  | .null => "null".toList
  | .bool true => "true".toList
  | .bool false => "false".toList
  | .num n => intStr n
  | .str s => '"' :: (escapeJStr s ++ ['"'])
  | .arr xs => '[' :: (dumpsList xs ++ [']'])
  | .obj kvs => '{' :: (dumpsKVs kvs ++ ['}'])

def dumpsList : List Json → List Char
  | [] => []
  | [x] => dumps x
  | x :: y :: rest => dumps x ++ ',' :: ' ' :: dumpsList (y :: rest)

def dumpsKVs : List (List Char × Json) → List Char
  | [] => []
  | [(k, v)] => '"' :: (escapeJStr k ++ '"' :: ':' :: ' ' :: dumps v)
  | (k, v) :: q :: rest =>
    '"' :: (escapeJStr k ++ '"' :: ':' :: ' ' :: dumps v) ++
      ',' :: ' ' :: dumpsKVs (q :: rest)

end

/-! ### Structural signatures (`json.dumps(.., sort_keys=True)` equality) -/

def charListLt : List Char → List Char → Bool
  | [], [] => false
  | [], _ :: _ => true
  | _ :: _, [] => false
  | a :: as, b :: bs => if a = b then charListLt as bs else decide (a < b)

def insertSortedKV (p : List Char × Json) :
    List (List Char × Json) → List (List Char × Json)
  | [] => [p]
  | q :: rest => if charListLt p.1 q.1 then p :: q :: rest else q :: insertSortedKV p rest

mutual

/-- Canonical form of a JSON value: object keys sorted recursively.  Two
values have the same canonical form exactly when Python's sorted-keys dump
(the dedup signature used by `_parse_tool_calls`) coincides. -/
def canon : Json → Json
  | .obj kvs => .obj ((canonKVs kvs).foldr insertSortedKV [])
  | .arr xs => .arr (canonList xs)
  | .null => .null
  | .bool b => .bool b
  | .num n => .num n
  | .str s => .str s

def canonList : List Json → List Json
  | [] => []
  | x :: xs => canon x :: canonList xs

def canonKVs : List (List Char × Json) → List (List Char × Json)
  | [] => []
  | (k, v) :: rest => (k, canon v) :: canonKVs rest

end

/-! ### Python `"name" in value` (membership / substring test) -/

inductive PyErr where
  | decodeError : PyErr
  | typeError : PyErr
deriving DecidableEq

/-- `k in j` for the container shapes where Python does not raise. -/
def hasKeyTotal (j : Json) (k : List Char) : Bool :=
  match j with
  | .obj kvs => kvs.any (fun p => p.1 = k)
  | .arr xs => xs.any (fun x => x = Json.str k)
  | .str s => isSubstr k s
  | _ => false

/-- `k in j` with Python's `TypeError` on non-container values. -/
def hasKeyE (j : Json) (k : List Char) : Except PyErr Bool :=
  match j with
  | .num _ => .error .typeError
  | .bool _ => .error .typeError
  | .null => .error .typeError
  | _ => .ok (hasKeyTotal j k)

/-- `list(dict.fromkeys ..)`-style dedup used on tool calls: keep the first
occurrence of each canonical signature. -/
def dedupJsonGo (seen : List Json) : List Json → List Json
  | [] => []
  | j :: rest =>
    if canon j ∈ seen then dedupJsonGo seen rest
    else j :: dedupJsonGo (canon j :: seen) rest

def dedupJson (l : List Json) : List Json := dedupJsonGo [] l

/-! ### `HybridLLM._parse_tool_calls`: candidate capture

The source scans the generated text with two regexes
(`hybrid_llm.py:826` and `:831`) and unions their captures:

  pattern A: `TOOL_CALL:\s*(\{[^}]*\}?)`
  pattern B: `TOOL_CALL:\s*(\{[^{}]*(?:\{[^{}]*\})*[^}]*\}?)`

Both are modelled as deterministic scanners with the exact greedy /
limited-backtracking behaviour of `re.findall` on these patterns. -/

def toolCallMarker : List Char :=
  ['T', 'O', 'O', 'L', '_', 'C', 'A', 'L', 'L', ':']

/-- Pattern A capture, positioned after the marker: `\s*` then
`\{[^}]*\}?`.  Returns the capture and the rest of the input. -/
def grabA (s : List Char) : Option (List Char × List Char) :=
  match s.dropWhile isPyWs with
  | '{' :: r =>
    let body := r.takeWhile (fun c => !(c = '}'))
    match r.drop body.length with
    | '}' :: r3 => some ('{' :: (body ++ ['}']), r3)
    | r2 => some ('{' :: body, r2)
  | _ => none

def isBraceC (c : Char) : Bool := c = '{' || c = '}'

/-- The `(?:\{[^{}]*\})*` loop of pattern B: consume complete single-level
brace groups greedily; an incomplete trailing group is left unconsumed
(the regex backtracks it into the `[^}]*` tail). -/
def grabBGroups : Nat → List Char → (List Char × List Char)
  | 0, s => ([], s)
  | fuel + 1, s =>
    match s with
    | '{' :: r =>
      let run := r.takeWhile (fun c => !isBraceC c)
      match r.drop run.length with
      | '}' :: r2 =>
        let p := grabBGroups fuel r2
        ('{' :: (run ++ '}' :: p.1), p.2)
      | _ => ([], s)
    | _ => ([], s)

/-- Pattern B capture, positioned after the marker:
`\s*` then `\{[^{}]*(?:\{[^{}]*\})*[^}]*\}?`. -/
def grabB (s : List Char) : Option (List Char × List Char) :=
  match s.dropWhile isPyWs with
  | '{' :: r =>
    let h := r.takeWhile (fun c => !isBraceC c)
    let r1 := r.drop h.length
    let p := grabBGroups r1.length r1
    let t := p.2.takeWhile (fun c => !(c = '}'))
    match p.2.drop t.length with
    | '}' :: r4 => some ('{' :: (h ++ p.1 ++ t ++ ['}']), r4)
    | r3 => some ('{' :: (h ++ p.1 ++ t), r3)
  | _ => none

/-- `re.findall` over the whole text: non-overlapping leftmost matches; a
marker occurrence not followed by `\s*\{` fails and scanning resumes at
the next character. -/
def findallTC (grab : List Char → Option (List Char × List Char)) :
    Nat → List Char → List (List Char)
  | 0, _ => []
  | _, [] => []
  | fuel + 1, c :: cs =>
    if toolCallMarker.isPrefixOf (c :: cs) then
      match grab ((c :: cs).drop 10) with
      | some (cap, rest) => cap :: findallTC grab fuel rest
      | none => findallTC grab fuel cs
    else findallTC grab fuel cs

/-- Dedup of candidate strings, `list(set(matches + multiline_matches))`.
CPython set order is implementation-defined; first-seen order is used, and
no verified claim depends on the relative order of distinct candidates. -/
def dedupStrsGo (seen : List (List Char)) : List (List Char) → List (List Char)
  | [] => []
  | s :: rest =>
    if s ∈ seen then dedupStrsGo seen rest
    else s :: dedupStrsGo (s :: seen) rest

/-- All candidate fragments of the generated text, in scan order. -/
def tcCandidates (content : List Char) : List (List Char) :=
  dedupStrsGo []
    (findallTC grabA content.length content ++ findallTC grabB content.length content)

/-! ### Regex field extractors used by `_fix_json` and
`_extract_tool_call_components`

`re.search(LIT + r'\s*"([^"]+)"', s)` (and the `*`, `\d+` and
`true|false` variants): scan left to right; at a failed partial match
resume at the next character; return the first capture. -/

/-- Search for `lit` followed by `\s*"([^"]*)"`; with `plus = true` the
capture must be nonempty (`[^"]+`). -/
def searchQuoted (lit : List Char) (plus : Bool) : Nat → List Char → Option (List Char)
  | 0, _ => none
  | _, [] => none
  | fuel + 1, c :: cs =>
    (if lit.isPrefixOf (c :: cs) then
      match ((c :: cs).drop lit.length).dropWhile isPyWs with
      | '"' :: r1 =>
        let v := r1.takeWhile (fun d => !(d = '"'))
        match r1.drop v.length with
        | '"' :: _ => if plus && v.isEmpty then searchQuoted lit plus fuel cs else some v
        | _ => searchQuoted lit plus fuel cs
      | _ => searchQuoted lit plus fuel cs
    else searchQuoted lit plus fuel cs)

/-- Search for `lit` followed by `\s*(\d+)`, returning `int(capture)`. -/
def searchIntField (lit : List Char) : Nat → List Char → Option Int
  | 0, _ => none
  | _, [] => none
  | fuel + 1, c :: cs =>
    (if lit.isPrefixOf (c :: cs) then
      let r := ((c :: cs).drop lit.length).dropWhile isPyWs
      let ds := r.takeWhile isDigitC
      if ds.isEmpty then searchIntField lit fuel cs
      else some (digitsVal ds : Int)
    else searchIntField lit fuel cs)

/-- Search for `lit` followed by `\s*(true|false)`. -/
def searchBoolField (lit : List Char) : Nat → List Char → Option Bool
  | 0, _ => none
  | _, [] => none
  | fuel + 1, c :: cs =>
    (if lit.isPrefixOf (c :: cs) then
      let r := ((c :: cs).drop lit.length).dropWhile isPyWs
      if ['t', 'r', 'u', 'e'].isPrefixOf r then some true
      else if ['f', 'a', 'l', 's', 'e'].isPrefixOf r then some false
      else searchBoolField lit fuel cs
    else searchBoolField lit fuel cs)

/-! ### `HybridLLM._fix_json` and `HybridLLM._extract_tool_call_components` -/

def strName : List Char := "name".toList
def strParameters : List Char := "parameters".toList
def quotedName : List Char := "\"name\"".toList
def litName : List Char := "\"name\":".toList
def litAction : List Char := "\"action\":".toList
def litMaxResults : List Char := "\"max_results\":".toList
def litMessageId : List Char := "\"message_id\":".toList
def litBody : List Char := "\"body\":".toList
def litQuery : List Char := "\"query\":".toList
def litTime : List Char := "\"time\":".toList
def litMessage : List Char := "\"message\":".toList
def litLabel : List Char := "\"label\":".toList
def litRepeat : List Char := "\"repeat\":".toList
def litAlarmId : List Char := "\"alarm_id\":".toList

def addStrField (orig : List Char) (lit : List Char) (key : List Char) (plus : Bool)
    (acc : List (List Char × Json)) : List (List Char × Json) :=
  match searchQuoted lit plus orig.length orig with
  | some v => acc ++ [(key, Json.str v)]
  | none => acc

def addIntField (orig : List Char) (lit : List Char) (key : List Char)
    (acc : List (List Char × Json)) : List (List Char × Json) :=
  match searchIntField lit orig.length orig with
  | some n => acc ++ [(key, Json.num n)]
  | none => acc

def addBoolField (orig : List Char) (lit : List Char) (key : List Char)
    (acc : List (List Char × Json)) : List (List Char × Json) :=
  match searchBoolField lit orig.length orig with
  | some b => acc ++ [(key, Json.bool b)]
  | none => acc

/-- The field-by-field salvage of `_fix_json` (`hybrid_llm.py:943-999`):
known parameters extracted in source order into a fresh dict. -/
def reconParams (orig : List Char) : List (List Char × Json) :=
  ([] : List (List Char × Json))
  |> addStrField orig litAction "action".toList false
  |> addIntField orig litMaxResults "max_results".toList
  |> addStrField orig litMessageId "message_id".toList false
  |> addStrField orig litBody "body".toList false
  |> addStrField orig litQuery "query".toList false
  |> addStrField orig litTime "time".toList false
  |> addStrField orig litMessage "message".toList false
  |> addStrField orig litLabel "label".toList false
  |> addBoolField orig litRepeat "repeat".toList
  |> addStrField orig litAlarmId "alarm_id".toList false

/-- Manual reconstruction branch of `_fix_json` (`hybrid_llm.py:928-1005`). -/
def manualRecon (orig : List Char) : Option (List Char) :=
  if isSubstr quotedName orig then
    match searchQuoted litName true orig.length orig with
    | none => none
    | some nm =>
      some (dumps (Json.obj
        [(strName, Json.str nm), (strParameters, Json.obj (reconParams orig))]))
  else none

/-- `HybridLLM._fix_json` (`hybrid_llm.py:900-1010`).  Returns the repaired
JSON text or `None`.  The whole body runs under `except Exception: return
None`, so a `TypeError` from `"name" in test_data` on a non-container
value yields `None` (and skips the manual reconstruction). -/
def fix_json (s : List Char) : Option (List Char) :=
  let orig := pstrip s
  let j :=
    if !endsWithChar '}' orig then
      orig ++ List.replicate (countChar '{' orig - countChar '}' orig) '}'
    else orig
  match loads j with
  | some d =>
    match d with
    | .num _ => none
    | .bool _ => none
    | .null => none
    | _ => if hasKeyTotal d strName then some j else manualRecon orig
  | none => manualRecon orig

/-- `HybridLLM._extract_tool_call_components` (`hybrid_llm.py:1029-1071`). -/
def extract_tool_call_components (t : List Char) : Option Json :=
  match searchQuoted litName true t.length t with
  | none => none
  | some nm =>
    let ps :=
      ([] : List (List Char × Json))
      |> addStrField t litAction "action".toList true
      |> addIntField t litMaxResults "max_results".toList
      |> addStrField t litMessageId "message_id".toList true
      |> addStrField t litBody "body".toList true
      |> addStrField t litQuery "query".toList true
    some (Json.obj [(strName, Json.str nm), (strParameters, Json.obj ps)])

/-! ### `HybridLLM._parse_tool_calls` (`hybrid_llm.py:816-898`)

Per candidate: try `_fix_json` and parse the repaired text; fall back to a
strict parse of the candidate; a `json.JSONDecodeError` from either parse
is caught and routed to `_extract_tool_call_components`; a candidate that
yields no tool name is dropped.  `Except PyErr` mirrors which exceptions
the `except json.JSONDecodeError` clause does and does not catch. -/

def tryOrigPath (s : List Char) : Except PyErr (Option Json) :=
  match loads s with
  | none => .error .decodeError
  | some d =>
    match hasKeyE d strName with
    | .error e => .error e
    | .ok b => .ok (if b then some d else none)

def tryBody (s : List Char) : Except PyErr (Option Json) :=
  match fix_json s with
  | some f =>
    match loads f with
    | none => .error .decodeError
    | some d =>
      match hasKeyE d strName with
      | .error e => .error e
      | .ok true => .ok (some d)
      | .ok false => tryOrigPath s
  | none => tryOrigPath s

/-- One candidate through the repair ladder, with exception propagation:
a decode error is caught (salvage path), a `TypeError` is not. -/
def processMatchE (m : List Char) : Except PyErr (Option Json) :=
  match tryBody (pstrip m) with
  | .ok r => .ok r
  | .error .decodeError => .ok (extract_tool_call_components (pstrip m))
  | .error .typeError => .error .typeError

/-- One candidate through the repair ladder (total form). -/
def processMatch (m : List Char) : Option Json :=
  match tryBody (pstrip m) with
  | .ok r => r
  | .error _ => extract_tool_call_components (pstrip m)

/-- `HybridLLM._parse_tool_calls`: extract, repair, drop unrecoverable
candidates, dedup by structural signature keeping first-seen order. -/
def parse_tool_calls (content : List Char) : List Json :=
  dedupJson ((tcCandidates content).filterMap processMatch)

def collectMatchesE : List (List Char) → Except PyErr (List Json)
  | [] => .ok []
  | m :: rest =>
    match processMatchE m with
    | .error e => .error e
    | .ok r =>
      match collectMatchesE rest with
      | .error e => .error e
      | .ok l => .ok (match r with | some j => j :: l | none => l)

/-- `_parse_tool_calls` with exception propagation made explicit. -/
def parse_tool_callsE (content : List Char) : Except PyErr (List Json) :=
  match collectMatchesE (tcCandidates content) with
  | .error e => .error e
  | .ok l => .ok (dedupJson l)

/-! ### Python `str()` of a value (used for tool results and prompts) -/

mutual

def pyStr : Json → List Char
  | .str s => s
  | .num n => intStr n
  | .bool true => ['T', 'r', 'u', 'e']
  | .bool false => ['F', 'a', 'l', 's', 'e']
  | .null => ['N', 'o', 'n', 'e']
  | .arr xs => '[' :: (pyReprList xs ++ [']'])
  | .obj kvs => '{' :: (pyReprKVs kvs ++ ['}'])

/-- `repr()`; string quoting is modelled without escape processing (no
verified input contains quotes inside a rendered value). -/
def pyRepr : Json → List Char
  | .str s => '\'' :: (s ++ ['\''])
  | .num n => intStr n
  | .bool true => ['T', 'r', 'u', 'e']
  | .bool false => ['F', 'a', 'l', 's', 'e']
  | .null => ['N', 'o', 'n', 'e']
  | .arr xs => '[' :: (pyReprList xs ++ [']'])
  | .obj kvs => '{' :: (pyReprKVs kvs ++ ['}'])

def pyReprList : List Json → List Char
  | [] => []
  | [x] => pyRepr x
  | x :: y :: rest => pyRepr x ++ ',' :: ' ' :: pyReprList (y :: rest)

def pyReprKVs : List (List Char × Json) → List Char
  | [] => []
  | [(k, v)] => '\'' :: (k ++ '\'' :: ':' :: ' ' :: pyRepr v)
  | (k, v) :: q :: rest =>
    '\'' :: (k ++ '\'' :: ':' :: ' ' :: pyRepr v) ++ ',' :: ' ' :: pyReprKVs (q :: rest)

end

/-! `json.dumps(v, ensure_ascii=False, indent=2)`. -/

mutual

def dumpsInd (lvl : Nat) : Json → List Char
  | .arr [] => ['[', ']']
  | .arr (x :: xs) =>
    '[' :: '\n' :: (dumpsIndList (lvl + 1) (x :: xs) ++
      '\n' :: List.replicate (2 * lvl) ' ' ++ [']'])
  | .obj [] => ['{', '}']
  | .obj (p :: ps) =>
    '{' :: '\n' :: (dumpsIndKVs (lvl + 1) (p :: ps) ++
      '\n' :: List.replicate (2 * lvl) ' ' ++ ['}'])
  | j => dumps j

def dumpsIndList (lvl : Nat) : List Json → List Char
  | [] => []
  | [x] => List.replicate (2 * lvl) ' ' ++ dumpsInd lvl x
  | x :: y :: rest =>
    List.replicate (2 * lvl) ' ' ++ dumpsInd lvl x ++
      ',' :: '\n' :: dumpsIndKVsSepList lvl (y :: rest)

def dumpsIndKVsSepList (lvl : Nat) : List Json → List Char
  | l => dumpsIndList lvl l

def dumpsIndKVs (lvl : Nat) : List (List Char × Json) → List Char
  | [] => []
  | [(k, v)] =>
    List.replicate (2 * lvl) ' ' ++ '"' :: (escapeJStr k ++ '"' :: ':' :: ' ' :: dumpsInd lvl v)
  | (k, v) :: q :: rest =>
    List.replicate (2 * lvl) ' ' ++ '"' :: (escapeJStr k ++ '"' :: ':' :: ' ' :: dumpsInd lvl v) ++
      ',' :: '\n' :: dumpsIndKVs lvl (q :: rest)

end

/-! ### Conversation messages passed between components -/

structure CtxMsg where
  role : List Char
  content : List Char
deriving DecidableEq

/-! ### Placeholder email-id resolution (`hybrid_llm.py:786-814, 508-532`) -/

def placeholder_patterns : List (List Char) :=
  ["メールID".toList, "メッセージID".toList, "email_id".toList,
   "message_id_placeholder".toList]

def strMessageId : List Char := "message_id".toList
def strGmail : List Char := "gmail".toList
def strActionK : List Char := "action".toList
def strReply : List Char := "reply".toList

/-- `current_id in placeholder_patterns` (a non-string value never equals). -/
def isPlaceholderVal (v : Json) : Bool :=
  match v with
  | .str s => placeholder_patterns.any (fun p => p = s)
  | _ => false

/-- One tool call through `_replace_placeholder_email_ids`.  Only calls
named `"gmail"` whose `parameters` is a dict are touched; a placeholder
`message_id` is overwritten, and a `reply` action with a missing, falsy or
placeholder `message_id` gets the id as well. -/
def replaceOneCall (actual : List Char) (tc : Json) : Json :=
  match tc with
  | .obj kvs =>
    if lookupKV kvs strName = some (.str strGmail) then
      match lookupKV kvs strParameters with
      | some (.obj params) =>
        let p1 :=
          match lookupKV params strMessageId with
          | some v => if isPlaceholderVal v then insertKV params strMessageId (.str actual)
                      else params
          | none => params
        let needsReplyFix :=
          lookupKV p1 strActionK = some (.str strReply) &&
            (match lookupKV p1 strMessageId with
             | none => true
             | some v => !jTruthy v || isPlaceholderVal v)
        let p2 := if needsReplyFix then insertKV p1 strMessageId (.str actual) else p1
        .obj (insertKV kvs strParameters (.obj p2))
      | _ => tc
    else tc
  | _ => tc

/-- `HybridLLM._replace_placeholder_email_ids`. -/
def replace_placeholder_email_ids (tcs : List Json) (actual : List Char) : List Json :=
  tcs.map (replaceOneCall actual)

/-- The regex `ID:\s*([a-zA-Z0-9]+)` (first match). -/
def searchIdPattern : Nat → List Char → Option (List Char)
  | 0, _ => none
  | _, [] => none
  | fuel + 1, c :: cs =>
    (if ['I', 'D', ':'].isPrefixOf (c :: cs) then
      let r := ((c :: cs).drop 3).dropWhile isPyWs
      let run := r.takeWhile isAlnumADigit
      if run.isEmpty then searchIdPattern fuel cs else some run
    else searchIdPattern fuel cs)

/-- Fallback scan of the context messages for a canonical id
(`hybrid_llm.py:516-526`): most recent message first; a message containing
`ID:` without a well-formed id does not stop the scan. -/
def scanContextGo : List CtxMsg → Option (List Char)
  | [] => none
  | m :: rest =>
    if isSubstr ['I', 'D', ':'] m.content then
      match searchIdPattern m.content.length m.content with
      | some i => some i
      | none => scanContextGo rest
    else scanContextGo rest

def scanContextForId (context : List CtxMsg) : Option (List Char) :=
  scanContextGo context.reverse

/-- The id available for placeholder replacement: the context manager's
stored id if truthy, else the history scan (`hybrid_llm.py:508-526`). -/
def derive_latest_email_id (ctxMgrId : Option (List Char)) (context : List CtxMsg) :
    Option (List Char) :=
  match ctxMgrId with
  | some i => if i.isEmpty then scanContextForId context else some i
  | none => scanContextForId context

/-! ### Provider fallback (`HybridLLM._generate_with_fallback`,
`hybrid_llm.py:1145-1185`) -/

structure GenResponse where
  content : List Char
  tool_calls : List Json := []

structure ProviderM where
  available : Bool
  gen : List CtxMsg → Option GenResponse

structure LLMConfig where
  primary : List Char
  fallback : Option (List Char)
  autoFallback : Bool

def lookupProv (provs : List (List Char × ProviderM)) (n : List Char) : Option ProviderM :=
  match provs with
  | [] => none
  | (n0, p) :: rest => if n0 = n then some p else lookupProv rest n

/-- The third stage: any remaining available provider in registration
order, skipping the configured primary/fallback names; a raising provider
is caught and the loop continues. -/
def tryRemaining (cfg : LLMConfig) (msgs : List CtxMsg) :
    List (List Char × ProviderM) → Option GenResponse
  | [] => none
  | (n, p) :: rest =>
    if p.available && !(n = cfg.primary) && !(cfg.fallback = some n) then
      match p.gen msgs with
      | some r => some r
      | none => tryRemaining cfg msgs rest
    else tryRemaining cfg msgs rest

/-- `HybridLLM._generate_with_fallback`: primary, then (when
`auto_fallback` and a fallback is configured) the fallback, then the
remaining providers; exhaustion raises `RuntimeError`. -/
def generate_with_fallback (cfg : LLMConfig) (provs : List (List Char × ProviderM))
    (msgs : List CtxMsg) : Except Unit GenResponse :=
  let step3 : Except Unit GenResponse :=
    match tryRemaining cfg msgs provs with
    | some r => .ok r
    | none => .error ()
  let step2 : Except Unit GenResponse :=
    if cfg.autoFallback then
      match cfg.fallback with
      | some fb =>
        match lookupProv provs fb with
        | some p =>
          if p.available then
            match p.gen msgs with
            | some r => .ok r
            | none => step3
          else step3
        | none => step3
      | none => step3
    else step3
  match lookupProv provs cfg.primary with
  | some p =>
    if p.available then
      match p.gen msgs with
      | some r => .ok r
      | none => step2
    else step2
  | none => step2

/-! ### `HybridLLM._format_tool_results` (`hybrid_llm.py:1121-1143`) -/

def strMetaSuffix : List Char := "_metadata".toList

def endsWithMeta (k : List Char) : Bool :=
  strMetaSuffix.reverse.isPrefixOf k.reverse

def joinNL : List (List Char) → List Char
  | [] => []
  | [x] => x
  | x :: y :: rest => x ++ '\n' :: joinNL (y :: rest)

def formatOneResult (k : List Char) (v : Json) : List Char :=
  k ++ ':' :: ' ' ::
    (match v with
     | .obj kvs =>
       match lookupKV kvs "message".toList with
       | some mv => pyStr mv
       | none => dumpsInd 0 (.obj kvs)
     | _ => pyStr v)

def format_tool_results (m : List (List Char × Json)) : List Char :=
  joinNL (m.filterMap (fun p =>
    if endsWithMeta p.1 then none else some (formatOneResult p.1 p.2)))

/-! ### `HybridLLM.process_with_tools` (`hybrid_llm.py:459-551`) and
`HybridLLM.generate_final_response` (`hybrid_llm.py:1073-1119`) -/

def takeLastN {α : Type} (n : Nat) (l : List α) : List α :=
  l.drop (l.length - n)

structure PWTResult where
  response : List Char
  tool_calls : List Json
  hadError : Bool

def strSystem : List Char := "system".toList
def strUser : List Char := "user".toList

def genericErrorMsg : List Char :=
  "申し訳ありませんが、処理中にエラーが発生しました。".toList

/-- `HybridLLM.process_with_tools`: one generative pass; provider-native
structured calls and text-extracted calls are concatenated (provider list
first), then placeholder ids are resolved when an id is known; any raised
exception (in particular provider exhaustion) is converted to a fixed
apology with no tool calls. -/
def process_with_tools (cfg : LLMConfig) (provs : List (List Char × ProviderM))
    (sysPrompt : List Char) (context : List CtxMsg) (text : List Char)
    (ctxMgrId : Option (List Char)) : PWTResult :=
  let msgs := ⟨strSystem, sysPrompt⟩ :: (takeLastN 10 context ++ [⟨strUser, text⟩])
  match generate_with_fallback cfg provs msgs with
  | .error () => { response := genericErrorMsg, tool_calls := [], hadError := true }
  | .ok resp =>
    let tcs := resp.tool_calls ++ parse_tool_calls resp.content
    let tcs2 :=
      match derive_latest_email_id ctxMgrId context with
      | some i => replace_placeholder_email_ids tcs i
      | none => tcs
    { response := resp.content, tool_calls := tcs2, hadError := false }

def synthSystemPrompt : List Char :=
  ("以下のツール実行結果を基に、ユーザーに分かりやすい応答を生成してください。\n" ++
   "【重要ルール】\n" ++
   "• 必ず1〜2文以内で簡潔に答える\n" ++
   "• 応答構造: 結論を先に → 必要なら簡潔な補足\n" ++
   "• ツールが返した結果をそのまま伝える（余計な解釈や説明を加えない）\n" ++
   "• 技術的な詳細は省略し、自然な日本語で\n" ++
   "• 「〜ですね」「〜ですよ」など柔らかい語尾を使う").toList

def synthErrorMsg : List Char :=
  "ツールを実行しましたが、結果の処理中にエラーが発生しました。".toList

/-- `HybridLLM.generate_final_response`: the synthesis pass over the action
results; any raised exception yields the fixed synthesis-failure reply. -/
def generate_final_response (cfg : LLMConfig) (provs : List (List Char × ProviderM))
    (original : List Char) (tool_results : List (List Char × Json))
    (context : List CtxMsg) : List Char :=
  let userMsg :=
    "元のリクエスト: ".toList ++ original ++
    "\n\nツール実行結果:\n".toList ++ format_tool_results tool_results ++
    "\n\n上記の結果を1〜2文以内で簡潔に伝えてください。".toList
  let msgs := ⟨strSystem, synthSystemPrompt⟩ :: (takeLastN 5 context ++ [⟨strUser, userMsg⟩])
  match generate_with_fallback cfg provs msgs with
  | .ok r => r.content
  | .error () => synthErrorMsg

/-! ### `RuleProcessor` (`rule_processor.py`)

Match patterns.  The rule table mixes literal regexes (substring search),
anchored literals (`^morning$`, `^ohayo`), two-literal `a.*b` regexes, and
the arithmetic patterns `(\d+)\s*op\s*(\d+)`; each class is modelled by
its search semantics (`また.*` is a plain substring search for `また`
because the trailing `.*` may match empty). -/

inductive Pat where
  | lit : List Char → Pat
  | exact : List Char → Pat
  | atStart : List Char → Pat
  | seq : List Char → List Char → Pat
  | numOp : Char → Pat
deriving DecidableEq

/-- Test a position predicate at every suffix (regex scan positions). -/
def scanAny (p : List Char → Bool) : List Char → Bool
  | [] => p []
  | c :: cs => p (c :: cs) || scanAny p cs

/-- `(\d+)\s*op\s*(\d+)` anchored at the current position (the greedy
digit run is maximal, which is the only viable regex parse here). -/
def numOpMatchAt (op : Char) (s : List Char) : Bool :=
  match s.head? with
  | some c =>
    if isDigitC c then
      let ds := s.takeWhile isDigitC
      match (s.drop ds.length).dropWhile isPyWs with
      | o :: r2 =>
        o = op &&
          (match (r2.dropWhile isPyWs).head? with
           | some d2 => isDigitC d2
           | none => false)
      | [] => false
    else false
  | none => false

/-- `a.*b` search (`.`-excludes-newline nicety not modelled; no verified
input contains a newline). -/
def seqMatch (a b s : List Char) : Bool :=
  scanAny (fun t => a.isPrefixOf t && isSubstr b (t.drop a.length)) s

def patMatch (p : Pat) (s : List Char) : Bool :=
  match p with
  | .lit l => isSubstr l s
  | .exact l => s = l
  | .atStart l => l.isPrefixOf s
  | .seq a b => seqMatch a b s
  | .numOp op => scanAny (numOpMatchAt op) s

structure Rule where
  name : List Char
  patterns : List Pat
  responses : List (List Char)
  action : Option (List Char) := none
  priority : Int
deriving DecidableEq

/-- The rule table of `RuleProcessor._load_rules` (`rule_processor.py:21-148`).
Pattern literals are stored lowercased, matching the `re.IGNORECASE`
search over the lowercased input. -/
def loadedRules : List Rule :=
  [{ name := "greeting_morning".toList,
     patterns := [.lit "おはよう".toList, .lit "お早う".toList,
                  .exact "morning".toList, .atStart "ohayo".toList],
     responses := ["おはようございます！今日も一日頑張りましょう！".toList,
                   "おはよう！素敵な一日になりそうですね".toList,
                   "おはようございます。今日はどんなことをお手伝いしましょうか？".toList],
     priority := 10 },
   { name := "greeting_general".toList,
     patterns := [.lit "こんにちは".toList, .lit "こんばんは".toList,
                  .lit "hello".toList, .lit "hi".toList],
     responses := ["こんにちは！何かお手伝いできることはありますか？".toList,
                   "こんにちは！今日はいかがお過ごしですか？".toList,
                   "お疲れさまです！何でもお気軽にお聞かせください".toList],
     priority := 10 },
   { name := "current_time".toList,
     patterns := [.lit "今何時".toList, .seq "時間".toList "教えて".toList,
                  .seq "現在".toList "時刻".toList, .lit "いまの時間".toList],
     responses := [], action := some "get_current_time".toList, priority := 15 },
   { name := "current_date".toList,
     patterns := [.seq "今日".toList "日付".toList, .seq "今日".toList "何日".toList,
                  .seq "日付".toList "教えて".toList, .lit "きょうの日付".toList],
     responses := [], action := some "get_current_date".toList, priority := 15 },
   { name := "simple_calculation".toList,
     patterns := [.numOp '+', .numOp '-', .numOp '×', .numOp '÷'],
     responses := [], action := some "calculate".toList, priority := 20 },
   { name := "feeling_bad".toList,
     patterns := [.lit "疲れた".toList, .lit "つらい".toList, .lit "大変".toList,
                  .lit "きつい".toList, .lit "しんどい".toList],
     responses := ["お疲れさまです。少し休憩してくださいね".toList,
                   "大変でしたね。無理をしないでください".toList,
                   "お疲れのようですね。何かリラックスできることはありますか？".toList],
     priority := 8 },
   { name := "feeling_good".toList,
     patterns := [.lit "嬉しい".toList, .lit "楽しい".toList, .lit "良い".toList,
                  .lit "最高".toList, .lit "幸せ".toList],
     responses := ["それは良かったです！素晴らしいですね".toList,
                   "嬉しいお話をありがとうございます！".toList,
                   "そんな気持ちになれて良かったですね".toList],
     priority := 8 },
   { name := "thanks".toList,
     patterns := [.lit "ありがとう".toList, .lit "感謝".toList, .lit "thank".toList],
     responses := ["どういたしまして。ではまた後ほど。".toList],
     priority := 12 },
   { name := ['s', 'o', 'r', 'r', 'y'],
     patterns := [.lit "ごめん".toList, .lit "すみません".toList,
                  .lit "申し訳".toList, .lit ['s', 'o', 'r', 'r', 'y']],
     responses := ["大丈夫ですよ！".toList, "お気になさらず".toList,
                   "いえいえ、全然問題ありません".toList],
     priority := 12 },
   { name := "help".toList,
     patterns := [.lit "ヘルプ".toList, .lit "使い方".toList, .lit "help".toList,
                  .lit "どうやって".toList, .lit "方法".toList],
     responses := ["私は音声AIアシスタントです。話しかけてくだされば、様々なお手伝いができます".toList,
                   "マイクボタンを押して話しかけてください。質問、計算、情報検索などができます".toList,
                   "設定画面から個人情報を登録すると、よりパーソナライズされた応答ができます".toList],
     priority := 15 },
   { name := "gmail_trigger".toList,
     patterns := [.lit "メール".toList, .lit "gmail".toList, .lit "ジーメール".toList,
                  .lit "gmailについて".toList, .lit "メールチェック".toList,
                  .seq "受信".toList "メール".toList, .seq "送信".toList "メール".toList,
                  .seq "メール".toList "確認".toList, .seq "メール".toList "読".toList,
                  .seq "メール".toList "送".toList, .lit "返信".toList,
                  .seq "メール".toList "返信".toList, .lit "返事".toList,
                  .seq "メール".toList "返事".toList, .lit "reply".toList],
     responses := [], action := some "use_gmail_tool".toList, priority := 25 },
   { name := "goodbye".toList,
     patterns := [.lit "さようなら".toList, .lit "バイバイ".toList, .lit "また".toList,
                  .lit "bye".toList, .lit "goodbye".toList],
     responses := ["さようなら！また話しましょう".toList,
                   "お疲れさまでした！またお会いしましょう".toList,
                   "また今度お話ししましょう。お気をつけて！".toList],
     priority := 10 }]

/-- The inner pattern loop of `RuleProcessor.process_input`
(`rule_processor.py:175-176`): the rule is recorded iff some pattern
matches. -/
def rule_matches (r : Rule) (input : List Char) : Bool :=
  r.patterns.any (fun p => patMatch p input)

/-- The matching loop of `RuleProcessor.process_input`
(`rule_processor.py:169-180`): scan rules in list order, record a rule
exactly when some pattern matches and its priority strictly exceeds the
best priority so far (initially `-1`). -/

def selectGo (input : List Char) : List Rule → Option Rule → Int → Option Rule
  | [], best, _ => best
  | r :: rs, best, hp =>
    if rule_matches r input && decide (hp < r.priority) then
      selectGo input rs (some r) r.priority
    else selectGo input rs best hp

def select_rule (rules : List Rule) (input : List Char) : Option Rule :=
  selectGo input rules none (-1)

/-! ### `RuleProcessor._extract_reply_content` (`rule_processor.py:282-315`) -/

/-- Index of the first occurrence of `marker`. -/
def findMarkerIdx (marker : List Char) : List Char → Option Nat
  | [] => if marker.isEmpty then some 0 else none
  | c :: cs =>
    if marker.isPrefixOf (c :: cs) then some 0
    else (findMarkerIdx marker cs).map (· + 1)

/-- `re.search(r'(.+?)MARKER', s)` capture: the prefix before the first
occurrence of the marker at an index at least 1 (the non-greedy group
needs one character). -/
def captureBefore (marker : List Char) (s : List Char) : Option (List Char) :=
  match s with
  | [] => none
  | c :: cs => (findMarkerIdx marker cs).map (fun j => c :: cs.take j)

/-- `re.sub(r'^(メールに|最新のメールに|)', '', content)`: the alternation is
tried in order at the start; the empty alternative makes it a no-op
otherwise. -/
def stripLeadMailTo (c : List Char) : List Char :=
  if "メールに".toList.isPrefixOf c then c.drop "メールに".toList.length
  else if "最新のメールに".toList.isPrefixOf c then c.drop "最新のメールに".toList.length
  else c

def minOptNat : Option Nat → Option Nat → Option Nat
  | some a, some b => some (min a b)
  | some a, none => some a
  | none, b => b

def defaultReply : List Char := "了解しました。".toList

def replyExclusions : List (List Char) :=
  ["届いてる".toList, "わかった".toList, "了解".toList]

/-- One `(.+?)marker` pattern of the pattern list: capture, strip, drop a
leading メールに/最新のメールに, succeed when nonempty. -/
def tryReplyPat (s marker : List Char) : Option (List Char) :=
  match captureBefore marker s with
  | some cap =>
    let c := stripLeadMailTo (pstrip cap)
    if c.isEmpty then none else some c
  | none => none

/-- `RuleProcessor._extract_reply_content`.  The fallback branch computes
`re.split(r'(って|と|て)?(返信|返事)', s)[0]`: the text before the leftmost
split match, which starts up to two characters before the first 返信/返事
occurrence when って, と or て immediately precedes it. -/
def extract_reply_content (s : List Char) : List Char :=
  match tryReplyPat s "って返信".toList <|> tryReplyPat s "と返信".toList <|>
        tryReplyPat s "て返信".toList <|> tryReplyPat s "って返事".toList <|>
        tryReplyPat s "と返事".toList <|> tryReplyPat s "て返事".toList with
  | some c => c
  | none =>
    if isSubstr "返信".toList s || isSubstr "返事".toList s then
      match minOptNat (findMarkerIdx "返信".toList s) (findMarkerIdx "返事".toList s) with
      | some k =>
        let splitStart :=
          if 2 ≤ k && ['っ', 'て'].isPrefixOf (s.drop (k - 2)) then k - 2
          else if 1 ≤ k && (s.get? (k - 1) = some 'と' || s.get? (k - 1) = some 'て') then k - 1
          else k
        let c0 := pstrip (s.take splitStart)
        if c0.isEmpty then defaultReply
        else
          let c := stripLeadMailTo c0
          if !c.isEmpty && !(replyExclusions.any (fun e => e = c)) then c
          else defaultReply
      | none => defaultReply
    else defaultReply

/-! ### `RuleProcessor._suggest_gmail_tool_calls` (`rule_processor.py:221-261`) -/

def reply_keywords : List (List Char) := ["返信".toList, "返事".toList, "reply".toList]

def read_keywords : List (List Char) :=
  ["未読".toList, "読".toList, "内容".toList, "確認".toList,
   "開いて".toList, "チェック".toList]

def gmailListCall (maxResults : Int) : Json :=
  Json.obj [(strName, .str strGmail),
            (strParameters, .obj [(strActionK, .str "list".toList),
                                  ("max_results".toList, .num maxResults)])]

def gmailListUnreadCall : Json :=
  Json.obj [(strName, .str strGmail),
            (strParameters, .obj [(strActionK, .str "list".toList),
                                  ("query".toList, .str "is:unread".toList),
                                  ("max_results".toList, .num 5)])]

def gmailReplyCall (body : List Char) : Json :=
  Json.obj [(strName, .str strGmail),
            (strParameters, .obj [(strActionK, .str strReply),
                                  (strMessageId, .str "メールID".toList),
                                  ("body".toList, .str body)])]

/-- `RuleProcessor._suggest_gmail_tool_calls`: a reply request becomes the
two-step list-then-reply pair with a placeholder message id; a read
request lists unread mail; anything else lists the latest five. -/
def suggest_gmail_tool_calls (input : List Char) : List Json :=
  if reply_keywords.any (fun k => isSubstr k input) then
    let rc := extract_reply_content input
    [gmailListCall 1, gmailReplyCall (if rc.isEmpty then defaultReply else rc)]
  else if read_keywords.any (fun k => isSubstr k input) then
    [gmailListUnreadCall]
  else
    [gmailListCall 5]

/-! ### `RuleProcessor.process_input` (`rule_processor.py:155-219`) -/

structure RuleEnv where
  /-- Index drawn for `random.choice` over the response variants. -/
  choose : Nat
  hasMemoryTool : Bool
  personalName : Option (List Char)
  personalHobbies : Option (List Char)
  /-- `RuleProcessor._execute_action` for the clock/calculator actions
  (wall-clock reads and float formatting, not exercised by any verified
  claim, are abstracted as this environment function). -/
  execActionResult : List Char → List Char → List Char

structure RuleResponse where
  rule_name : List Char
  response : List Char
  priority : Int
  is_final : Bool
  tool_calls : List Json := []
deriving DecidableEq

/-- `RuleProcessor._personalize_response` (`rule_processor.py:356-385`). -/
def personalize (env : RuleEnv) (resp ruleName : List Char) : List Char :=
  if ruleName = "greeting_morning".toList || ruleName = "greeting_general".toList then
    match env.personalName with
    | some nm =>
      if isSubstr "おはよう".toList resp then
        "おはようございます、".toList ++ nm ++ "さん！今日も一日頑張りましょう！".toList
      else if isSubstr "こんにちは".toList resp then
        "こんにちは、".toList ++ nm ++ "さん！今日はいかがお過ごしですか？".toList
      else resp
    | none => resp
  else if ruleName = "thanks".toList then
    match env.personalName with
    | some nm => "どういたしまして、".toList ++ nm ++ "さん。ではまた後ほど。".toList
    | none => resp
  else if ruleName = "feeling_good".toList then
    match env.personalHobbies with
    | some hb =>
      "それは良かったです！".toList ++ hb ++
        "の時間でも作って、さらに楽しい時間を過ごしてくださいね。".toList
    | none => resp
  else resp

/-- `RuleProcessor.process_input`: `None` when uninitialized or unmatched;
a gmail action yields a non-final tool-call proposal; other actions and
canned responses are final. -/
def process_input (env : RuleEnv) (initialized : Bool) (user_input : List Char) :
    Option RuleResponse :=
  if !initialized then none
  else
    let clean := pylower (pstrip user_input)
    match select_rule loadedRules clean with
    | none => none
    | some r =>
      match r.action with
      | some a =>
        if a = "use_gmail_tool".toList then
          some { rule_name := r.name, response := [], priority := r.priority,
                 is_final := false, tool_calls := suggest_gmail_tool_calls clean }
        else
          some { rule_name := r.name, response := env.execActionResult a clean,
                 priority := r.priority, is_final := true }
      | none =>
        let resp0 := (r.responses.get? (env.choose % r.responses.length)).getD []
        let resp := if env.hasMemoryTool then personalize env resp0 r.name else resp0
        some { rule_name := r.name, response := resp, priority := r.priority,
               is_final := true }

/-! ### `ContextManager` (`context_manager.py`)

Timestamps are integers; `datetime.now()` is passed in as `now` and the
time window as an integer duration, so `cutoff_time = now - window` and
the retention test `msg.timestamp > cutoff_time` are exact. -/

def strAssistant : List Char := "assistant".toList

structure Msg where
  role : List Char
  content : List Char
  timestamp : Int
deriving DecidableEq

structure EmailState where
  last_action : Option (List Char) := none
  shown_email_ids : List Json := []
  last_shown_count : Nat := 0
  total_available : Option Int := none
  current_offset : Nat := 0
deriving DecidableEq

structure CMState where
  messages : List Msg
  max_messages : Nat
  context_window : Int
  current_topic : Option (List Char) := none
  latest_email_id : Option (List Char) := none
  email_state : EmailState := {}
deriving DecidableEq

/-- `ContextManager._cleanup_old_messages` (`context_manager.py:172-199`):
when over the count bound, keep every system message plus the most recent
`max_messages - (number of system messages)` other messages (system
messages move to the front); then evict non-system messages older than
the window. -/
def cleanup_old_messages (now : Int) (st : CMState) : CMState :=
  let msgs :=
    if st.max_messages < st.messages.length then
      let systems := st.messages.filter (fun m => m.role = strSystem)
      let others := st.messages.filter (fun m => !(m.role = strSystem))
      let keep : Int := (st.max_messages : Int) - (systems.length : Int)
      let others2 := if 0 < keep then takeLastN keep.toNat others else others
      systems ++ others2
    else st.messages
  let cutoff := now - st.context_window
  { st with messages := msgs.filter (fun m => m.role = strSystem || cutoff < m.timestamp) }

def topicTable : List (List Char × List (List Char)) :=
  [("天気".toList, ["天気".toList, "気温".toList, "雨".toList, "晴れ".toList, "曇り".toList]),
   ("音楽".toList, ["音楽".toList, "曲".toList, "歌".toList, "再生".toList, "プレイリスト".toList]),
   ("照明".toList, ["電気".toList, "照明".toList, "ライト".toList, "明かり".toList]),
   ("予定".toList, ["予定".toList, "スケジュール".toList, "カレンダー".toList, "会議".toList]),
   ("メモ".toList, ["メモ".toList, "記録".toList, "覚えて".toList, "保存".toList])]

/-- `ContextManager._update_topic`: first topic bucket with a keyword hit. -/
def update_topic (st : CMState) (umsg : List Char) : CMState :=
  match topicTable.find? (fun p => p.2.any (fun k => isSubstr k umsg)) with
  | some (t, _) => if st.current_topic = some t then st else { st with current_topic := some t }
  | none => st

def add_user_message (now : Int) (st : CMState) (content : List Char) : CMState :=
  cleanup_old_messages now
    (update_topic { st with messages := st.messages ++ [⟨strUser, content, now⟩] } content)

def add_assistant_message (now : Int) (st : CMState) (content : List Char) : CMState :=
  cleanup_old_messages now
    { st with messages := st.messages ++ [⟨strAssistant, content, now⟩] }

/-- `add_system_message` appends without running the cleanup. -/
def add_system_message (now : Int) (st : CMState) (content : List Char) : CMState :=
  { st with messages := st.messages ++ [⟨strSystem, content, now⟩] }

def get_context (st : CMState) : List CtxMsg :=
  st.messages.map (fun m => ⟨m.role, m.content⟩)

/-- `ContextManager.update_email_state`: ids accumulate, offset grows. -/
def update_email_state (st : CMState) (action : List Char) (shown_ids : List Json)
    (shown_count : Nat) : CMState :=
  { st with email_state :=
    { st.email_state with
      last_action := some action,
      shown_email_ids := st.email_state.shown_email_ids ++ shown_ids,
      last_shown_count := shown_count,
      current_offset := st.email_state.current_offset + shown_count } }

/-! ### `VoiceAgent` tool dispatch (`agent.py:329-372, 468-494`) -/

inductive ToolOut where
  | toolResult : Json → Option Json → ToolOut
  | plain : Json → ToolOut

structure AgentEnv where
  /-- `ToolRegistry.execute_tool`; `Except.error` is a raised exception
  rendered through `str(e)`. -/
  executor : List Char → Json → Except (List Char) ToolOut
  session_id : Option (List Char) := none
  cfg : LLMConfig
  provs : List (List Char × ProviderM)
  /-- `_build_system_prompt` output (prompt text, no claim depends on it). -/
  sysPrompt : List Char
  ruleEnv : RuleEnv

def nameOfCall (tc : Json) : Option (List Char) :=
  match tc with
  | .obj kvs =>
    match lookupKV kvs strName with
    | some (.str n) => some n
    | _ => none
  | _ => none

def paramsOfCall (tc : Json) : List (List Char × Json) :=
  match tc with
  | .obj kvs =>
    match lookupKV kvs strParameters with
    | some (.obj ps) => ps
    | _ => []
  | _ => []

/-- `VoiceAgent._replace_placeholder_email_id` (`agent.py:468-494`): only a
`message_id` equal to a known placeholder phrase is replaced, and only
when a stored id exists; everything else is untouched. -/
def replace_placeholder_email_id (ctxId : Option (List Char))
    (params : List (List Char × Json)) : List (List Char × Json) :=
  match lookupKV params strMessageId with
  | some v =>
    if isPlaceholderVal v then
      match ctxId with
      | some i => insertKV params strMessageId (.str i)
      | none => params
    else params
  | none => params

/-- One iteration of the `_execute_tools` loop: gmail placeholder fix,
session-id injection, dispatch with per-action exception containment. -/
def execute_one (env : AgentEnv) (ctxId : Option (List Char)) (tc : Json) :
    List Char × Json × Option Json :=
  let tool_name := (nameOfCall tc).getD []
  let tool_params := paramsOfCall tc
  let tp1 :=
    if tool_name = strGmail &&
        (match lookupKV tool_params strMessageId with
         | some v => jTruthy v
         | none => false) then
      replace_placeholder_email_id ctxId tool_params
    else tool_params
  let tp2 :=
    match env.session_id with
    | some sid => insertKV tp1 "session_id".toList (.str sid)
    | none => tp1
  let out : Json × Option Json :=
    match env.executor tool_name (.obj tp2) with
    | .ok (.toolResult res meta) => (res, meta)
    | .ok (.plain v) => (v, none)
    | .error e => (.str ("エラーが発生しました: ".toList ++ e), none)
  (tool_name, out)

/-- One loop iteration of `_execute_tools`: store the result under the
tool name, and truthy metadata under `<name>_metadata`. -/
def execStep (env : AgentEnv) (ctxId : Option (List Char))
    (results : List (List Char × Json)) (tc : Json) : List (List Char × Json) :=
  let r := execute_one env ctxId tc
  let r1 := insertKV results r.1 r.2.1
  match r.2.2 with
  | some m => if jTruthy m then insertKV r1 (r.1 ++ strMetaSuffix) m else r1
  | none => r1

/-- `VoiceAgent._execute_tools`: a result dict keyed by tool name (plus
`<name>_metadata` for truthy metadata); later calls to the same tool
overwrite earlier entries in place. -/
def execute_tools (env : AgentEnv) (ctxId : Option (List Char)) (calls : List Json) :
    List (List Char × Json) :=
  calls.foldl (execStep env ctxId) []

/-! ### Email-id promotion and listing state (`agent.py:428-466, 496-517`) -/

def strGmailMetadata : List Char := strGmail ++ strMetaSuffix

/-- `VoiceAgent._extract_and_store_email_ids`: prefer the tool metadata's
`latest_email_id`; otherwise scan the gmail result text for `ID: <id>`. -/
def extract_and_store_email_ids (st : CMState) (tool_results : List (List Char × Json)) :
    CMState :=
  let viaMeta : Option (List Char) :=
    match lookupKV tool_results strGmailMetadata with
    | some (.obj kvs) =>
      match lookupKV kvs "latest_email_id".toList with
      | some v => if jTruthy v then some (match v with | .str i => i | w => pyStr w) else none
      | none => none
    | _ => none
  match viaMeta with
  | some i => { st with latest_email_id := some i }
  | none =>
    match lookupKV tool_results strGmail with
    | some (.str s) =>
      match searchIdPattern s.length s with
      | some i => { st with latest_email_id := some i }
      | none => st
    | _ => st

/-- `VoiceAgent._update_email_state_from_results`. -/
def update_email_state_from_results (st : CMState) (tool_results : List (List Char × Json)) :
    CMState :=
  match lookupKV tool_results strGmailMetadata with
  | some (.obj kvs) =>
    let shown :=
      match lookupKV kvs "shown_email_ids".toList with
      | some (.arr xs) => xs
      | _ => []
    if 0 < shown.length then update_email_state st "list".toList shown shown.length
    else st
  | _ => st

/-! ### `VoiceAgent.process_text` (`agent.py:117-327`)

The turn flow.  `agent.py:138-143` invokes
`self.rule_processor.process_input(text, context=..., memory_tool=...,
context_manager=self.context)`, but `RuleProcessor.process_input`
(`rule_processor.py:155`) accepts only `user_input`, `context` and
`memory_tool`: the call raises `TypeError: unexpected keyword argument`,
which the blanket handler at `agent.py:325-327` turns into the generic
error dict.  The keyword lists below record both signatures so the
mismatch is part of the model rather than an assumption. -/

/-- Parameters of `RuleProcessor.process_input` after `self`. -/
def process_input_keywords : List (List Char) :=
  ["user_input".toList, "context".toList, "memory_tool".toList]

/-- Keyword arguments passed at the call site `agent.py:138-143`. -/
def process_text_rule_call_keywords : List (List Char) :=
  ["context".toList, "memory_tool".toList, "context_manager".toList]

/-- The call raises `TypeError` iff some passed keyword is not accepted. -/
def rule_call_raises_type_error : Bool :=
  process_text_rule_call_keywords.any
    (fun k => !(process_input_keywords.any (fun p => p = k)))

structure AgentState where
  context : CMState
  initialized : Bool
deriving DecidableEq

inductive ProcessOutcome where
  /-- The returned dict: `text`, `tool_results` and `rule_used` keys (the
  `audio_url` / `timestamp` keys come from external collaborators). -/
  | ok : List Char → List Json → Option (List Char) → ProcessOutcome
  /-- The `{"error": ...}` dict from the blanket exception handler. -/
  | err : List Char → ProcessOutcome
  /-- An uncaught `RuntimeError` (agent not initialized). -/
  | raised : List Char → ProcessOutcome
deriving DecidableEq

def errorProcessingMsg : List Char := "処理中にエラーが発生しました".toList

def completionMsg : List Char := "処理が完了しました。".toList

/-- First non-metadata entry of the result dict (`agent.py:194-198`). -/
def first_non_metadata (m : List (List Char × Json)) : Option Json :=
  match m with
  | [] => none
  | (k, v) :: rest => if !endsWithMeta k then some v else first_non_metadata rest

/-- The rule-proposed-tools branch (`agent.py:171-219`): dispatch the
rule-built calls, promote ids, and reply with the *first non-metadata
tool result rendered as text* — the synthesis function `synth` (the
facade's `generate_final_response`) is a parameter precisely to record
that this branch never invokes it. -/
def rule_tool_branch (env : AgentEnv)
    (synth : List Char → List (List Char × Json) → List CtxMsg → List Char)
    (now : Int) (st : AgentState) (rr : RuleResponse) :
    ProcessOutcome × AgentState :=
  let m := execute_tools env st.context.latest_email_id rr.tool_calls
  let c1 := extract_and_store_email_ids st.context m
  let c2 := update_email_state_from_results c1 m
  let fr0 := match first_non_metadata m with
             | some v => pyStr v
             | none => []
  let fr := if fr0.isEmpty then completionMsg else fr0
  let c3 := add_assistant_message now c2 fr
  (.ok fr rr.tool_calls (some rr.rule_name), { st with context := c3 })

/-- The generative branch (`agent.py:221-323`): one reasoning pass with
tools; when it proposes calls they are dispatched and the reply is the
synthesis pass over the results; otherwise the pass's own text is the
reply. -/
def ai_branch (env : AgentEnv) (now : Int) (st : AgentState) (text : List Char) :
    ProcessOutcome × AgentState :=
  let ctxMsgs := get_context st.context
  let llmResp := process_with_tools env.cfg env.provs env.sysPrompt ctxMsgs text
    st.context.latest_email_id
  if !llmResp.tool_calls.isEmpty then
    let m := execute_tools env st.context.latest_email_id llmResp.tool_calls
    let c1 := extract_and_store_email_ids st.context m
    let c2 := update_email_state_from_results c1 m
    let fr := generate_final_response env.cfg env.provs text m (get_context c2)
    let c3 := add_assistant_message now c2 fr
    (.ok fr llmResp.tool_calls none, { st with context := c3 })
  else
    let fr := llmResp.response
    let c3 := add_assistant_message now st.context fr
    (.ok fr llmResp.tool_calls none, { st with context := c3 })

/-- `VoiceAgent.process_text`.  After recording the user turn, the rule
call raises `TypeError` (see `rule_call_raises_type_error`), so the
blanket handler returns the error dict; the remaining branches model the
flow the call site evidently intends (and are exercised directly by the
branch theorems). -/
def process_text (env : AgentEnv) (now : Int) (st : AgentState) (text : List Char) :
    ProcessOutcome × AgentState :=
  if !st.initialized then (.raised "Voice Agent not initialized".toList, st)
  else
    let st1 := { st with context := add_user_message now st.context text }
    if rule_call_raises_type_error then (.err errorProcessingMsg, st1)
    else
      match process_input env.ruleEnv true text with
      | some rr =>
        if rr.is_final then
          let c2 := add_assistant_message now st1.context rr.response
          (.ok rr.response [] (some rr.rule_name), { st1 with context := c2 })
        else if !rr.tool_calls.isEmpty then
          rule_tool_branch env (generate_final_response env.cfg env.provs) now st1 rr
        else ai_branch env now st1 text
      | none => ai_branch env now st1 text

/-!
## Claim theorems
-/

/-! ### C7: repair-ladder coverage on concrete malformed inputs -/

/-- A marked action object that is correct JSON except for the missing
final closing brace. -/
def contentTruncated : List Char :=
  "TOOL_CALL: \x7b\"name\": \"time\"".toList

/-- A marked action object whose candidate is unparsable JSON (trailing
comma) but carries a recoverable name plus every salvage-known field
class: action, max_results, message_id, body, query and a boolean flag. -/
def contentSalvage : List Char :=
  ("TOOL_CALL: \x7b\"name\": \"gmail\", \"action\": \"reply\", " ++
   "\"message_id\": \"abc123\", \"body\": \"hi\", \"query\": \"is:unread\", " ++
   "\"max_results\": 5, \"repeat\": true,\x7d").toList

/-- C7.  For an input whose marked action object is correct JSON except
for the missing final closing brace, extraction returns exactly the fully
correct parsed Action Request, and the repair is the brace-completion tier
(`_fix_json` appends the missing closing brace); for an input whose
candidate substring is unparsable JSON but contains a recoverable name
and known fields (action, max_results, message_id, body, query, boolean
`repeat`), field-by-field salvage recovers the name and those fields into
a best-effort Action Request. -/
theorem claim_C7_repair_ladder :
    parse_tool_calls contentTruncated = [Json.obj [(strName, Json.str "time".toList)]] ∧
    fix_json "\x7b\"name\": \"time\"".toList = some "\x7b\"name\": \"time\"\x7d".toList ∧
    parse_tool_calls contentSalvage =
      [Json.obj [(strName, Json.str "gmail".toList),
        (strParameters, Json.obj
          [("action".toList, Json.str "reply".toList),
           ("max_results".toList, Json.num 5),
           ("message_id".toList, Json.str "abc123".toList),
           ("body".toList, Json.str "hi".toList),
           ("query".toList, Json.str "is:unread".toList),
           ("repeat".toList, Json.bool true)])]] := by
  refine ⟨by decide, by decide, by decide⟩

/-! ### C2: deduplication scope of Action Requests within one Turn -/

/-- Output of the text-extraction dedup: no two entries share a structural
signature, and nothing already seen is re-emitted. -/
theorem dedupJsonGo_spec (l : List Json) : ∀ (seen : List Json),
    (dedupJsonGo seen l).Pairwise (fun a b => canon a ≠ canon b) ∧
    ∀ j ∈ dedupJsonGo seen l, canon j ∉ seen := by
  induction l with
  | nil => intro seen; simp [dedupJsonGo]
  | cons j rest ih =>
    intro seen
    by_cases h : canon j ∈ seen
    · simpa [dedupJsonGo, h] using ih seen
    · have hrec := ih (canon j :: seen)
      refine ⟨?_, ?_⟩
      · simp only [dedupJsonGo, if_neg h]
        refine List.Pairwise.cons ?_ hrec.1
        intro b hb hcb
        exact hrec.2 b hb (by rw [← hcb]; exact List.mem_cons_self _ _)
      · simp only [dedupJsonGo, if_neg h]
        intro x hx
        rcases List.mem_cons.mp hx with hx1 | hx2
        · rw [hx1]; exact h
        · intro hxs
          exact hrec.2 x hx2 (List.mem_cons_of_mem _ hxs)

/-- A structured gmail-list call, as a provider returns it and as the
extractor parses it from the marked text. -/
def c2Call : Json :=
  Json.obj [(strName, .str strGmail),
            (strParameters, .obj [(strActionK, .str "list".toList),
                                  ("max_results".toList, .num 5)])]

/-- A generation result carrying the same call twice: once provider-native
(structured) and once embedded in the text. -/
def c2Resp : GenResponse :=
  { content := ("TOOL_CALL: \x7b\"name\": \"gmail\", \"parameters\": " ++
      "\x7b\"action\": \"list\", \"max_results\": 5\x7d\x7d").toList,
    tool_calls := [c2Call] }

def c2Cfg : LLMConfig :=
  { primary := "claude".toList, fallback := some "ollama".toList, autoFallback := true }

def c2Provs : List (List Char × ProviderM) :=
  [("claude".toList, { available := true, gen := fun _ => some c2Resp })]

/-- C2, counterexample.  A provider-native structured call and a
text-extracted call with structurally identical content are both handed
to dispatch: `process_with_tools` concatenates the two source paths
without cross-path deduplication, so the list contains the content twice,
not exactly once as the claim states. -/
theorem claim_C2_counterexample :
    (process_with_tools c2Cfg c2Provs [] [] ['t'] none).tool_calls = [c2Call, c2Call] := by
  decide

/-- C2, amended.  Deduplication by structural signature happens only
inside the text-extraction path: `_parse_tool_calls` never returns two
structurally identical Action Requests (first-seen order kept).  The
provider-native list is concatenated in front of the extracted list with
no cross-path deduplication, so a call arriving on both paths is
dispatched twice (rule-built calls bypass this function entirely). -/
theorem claim_C2_dedup_scope :
    (∀ content : List Char,
      (parse_tool_calls content).Pairwise (fun a b => canon a ≠ canon b)) ∧
    (∀ (cfg : LLMConfig) (provs : List (List Char × ProviderM))
       (sys text : List Char) (resp : GenResponse),
      generate_with_fallback cfg provs
          (⟨strSystem, sys⟩ :: (takeLastN 10 ([] : List CtxMsg) ++ [⟨strUser, text⟩])) =
        .ok resp →
      (process_with_tools cfg provs sys [] text none).tool_calls =
        resp.tool_calls ++ parse_tool_calls resp.content) := by
  constructor
  · intro content
    exact (dedupJsonGo_spec _ []).1
  · intro cfg provs sys text resp h
    simp only [process_with_tools, h, derive_latest_email_id, scanContextForId,
      List.reverse_nil, scanContextGo]

theorem claim_C2_dedup_scope_witness :
    (parse_tool_calls c2Resp.content).Pairwise (fun a b => canon a ≠ canon b) ∧
    (process_with_tools c2Cfg c2Provs [] [] ['t'] none).tool_calls =
      c2Resp.tool_calls ++ parse_tool_calls c2Resp.content :=
  ⟨claim_C2_dedup_scope.1 c2Resp.content,
   claim_C2_dedup_scope.2 c2Cfg c2Provs [] ['t'] c2Resp (by rfl)⟩

/-! ### C1: the greeting short-circuit turn -/

/-- The system message installed by `ContextManager.initialize`. -/
def systemInitMsg : List Char :=
  ("あなたは親切で知的な音声AIアシスタントです。" ++
   "ユーザーの指示を理解し、適切なツールを使用して最適な支援を提供してください。" ++
   "自然で親しみやすい口調で会話してください。").toList

/-- A freshly initialized conversation state (`max_messages=50`,
two-hour window in seconds). -/
def initCMState : CMState :=
  { messages := [⟨strSystem, systemInitMsg, 0⟩], max_messages := 50,
    context_window := 7200 }

def plainRuleEnv : RuleEnv :=
  { choose := 0, hasMemoryTool := false, personalName := none,
    personalHobbies := none, execActionResult := fun _ _ => [] }

def c1Env : AgentEnv :=
  { executor := fun _ _ => .error "no tool".toList, cfg := c2Cfg, provs := [],
    sysPrompt := [], ruleEnv := plainRuleEnv }

def c1State : AgentState := { context := initCMState, initialized := true }

/-- C1.  The claimed short-circuit does not happen: although the
priority-10 greeting rule matches "おはよう" and `process_input`, invoked
as its signature allows, returns the canned final greeting (second
conjunct), `process_text` passes the unsupported keyword argument
`context_manager` to it (third conjunct), so every call — including this
one — raises `TypeError`, which the blanket handler converts into the
generic error dict instead of the canned greeting reply (first
conjunct). -/
theorem claim_C1_greeting_shortcircuit :
    (process_text c1Env 1 c1State "おはよう".toList).1 = .err errorProcessingMsg ∧
    process_input plainRuleEnv true "おはよう".toList =
      some { rule_name := "greeting_morning".toList,
             response := "おはようございます！今日も一日頑張りましょう！".toList,
             priority := 10, is_final := true, tool_calls := [] } ∧
    rule_call_raises_type_error = true := by
  refine ⟨by decide, by decide, by decide⟩

/-! ### C8: rule priority precedence

Characterization lemmas for the selection loop of
`RuleProcessor.process_input`. -/

theorem selectGo_none (input : List Char) : ∀ (rs : List Rule) (best : Option Rule) (hp : Int),
    (∀ r ∈ rs, rule_matches r input → r.priority ≤ hp) →
    selectGo input rs best hp = best := by
  intro rs
  induction rs with
  | nil => intro best hp _; rfl
  | cons r rs ih =>
    intro best hp h
    have hr : ¬(rule_matches r input && decide (hp < r.priority)) = true := by
      simp only [Bool.and_eq_true, decide_eq_true_eq, not_and]
      intro hm
      exact fun hlt => absurd hlt (not_lt.mpr (h r (List.mem_cons_self _ _) hm))
    simp only [selectGo, if_neg hr]
    exact ih best hp (fun r' hr' => h r' (List.mem_cons_of_mem _ hr'))

theorem selectGo_found (input : List Char) : ∀ (rs : List Rule) (best : Option Rule) (hp : Int),
    (∃ r ∈ rs, rule_matches r input ∧ hp < r.priority) →
    ∃ (i : Nat) (hi : i < rs.length),
      selectGo input rs best hp = some (rs.get ⟨i, hi⟩) ∧
      rule_matches (rs.get ⟨i, hi⟩) input = true ∧
      hp < (rs.get ⟨i, hi⟩).priority ∧
      (∀ r ∈ rs, rule_matches r input → r.priority ≤ (rs.get ⟨i, hi⟩).priority) ∧
      (∀ j (hj : j < rs.length), j < i → rule_matches (rs.get ⟨j, hj⟩) input →
        (rs.get ⟨j, hj⟩).priority < (rs.get ⟨i, hi⟩).priority) := by
  intro rs
  induction rs with
  | nil => intro best hp h; simp at h
  | cons r rs ih =>
    intro best hp h
    by_cases hm : rule_matches r input ∧ hp < r.priority
    · have hcond : (rule_matches r input && decide (hp < r.priority)) = true := by
        simp [hm.1, hm.2]
      by_cases hex : ∃ r' ∈ rs, rule_matches r' input ∧ r.priority < r'.priority
      · obtain ⟨i', hi', hsel, hmt, hlt, hmax, hearlier⟩ := ih (some r) r.priority hex
        have hi2 : i' + 1 < (r :: rs).length := by simpa using Nat.succ_lt_succ hi'
        have hget : (r :: rs).get ⟨i' + 1, hi2⟩ = rs.get ⟨i', hi'⟩ := rfl
        refine ⟨i' + 1, hi2, ?_, ?_, ?_, ?_, ?_⟩
        · rw [hget]
          simp only [selectGo, if_pos hcond]
          exact hsel
        · rw [hget]; exact hmt
        · rw [hget]; exact lt_trans hm.2 hlt
        · intro r' hr' hmr'
          rw [hget]
          rcases List.mem_cons.mp hr' with h1 | h2
          · subst h1; exact le_of_lt hlt
          · exact hmax r' h2 hmr'
        · intro j hj hji hmj
          rw [hget]
          match j with
          | 0 =>
            have hget0 : (r :: rs).get ⟨0, hj⟩ = r := rfl
            rw [hget0]
            exact hlt
          | j' + 1 =>
            have hj' : j' < rs.length := by simpa using hj
            exact hearlier j' hj' (by omega) hmj
      · push_neg at hex
        have hall : ∀ r' ∈ rs, rule_matches r' input → r'.priority ≤ r.priority := by
          intro r' hr' hmr'
          simpa [hmr'] using hex r' hr'
        have hnone := selectGo_none input rs (some r) r.priority hall
        refine ⟨0, by simp, ?_, hm.1, hm.2, ?_, ?_⟩
        · simp only [selectGo, if_pos hcond]
          exact hnone
        · intro r' hr' hmr'
          rcases List.mem_cons.mp hr' with h1 | h2
          · subst h1; exact le_refl _
          · exact hall r' h2 hmr'
        · intro j hj hji hmj
          omega
    · have hcond : ¬(rule_matches r input && decide (hp < r.priority)) = true := by
        simp only [Bool.and_eq_true, decide_eq_true_eq]
        exact fun hc => hm ⟨hc.1, hc.2⟩
      have hrle : rule_matches r input → r.priority ≤ hp := by
        intro hmr
        by_contra hc
        exact hm ⟨hmr, by omega⟩
      have hex : ∃ r' ∈ rs, rule_matches r' input ∧ hp < r'.priority := by
        obtain ⟨r', hr', hmr', hpr'⟩ := h
        rcases List.mem_cons.mp hr' with h1 | h2
        · subst h1; exact absurd ⟨hmr', hpr'⟩ hm
        · exact ⟨r', h2, hmr', hpr'⟩
      obtain ⟨i', hi', hsel, hmt, hlt, hmax, hearlier⟩ := ih best hp hex
      have hi2 : i' + 1 < (r :: rs).length := by simpa using Nat.succ_lt_succ hi'
      have hget : (r :: rs).get ⟨i' + 1, hi2⟩ = rs.get ⟨i', hi'⟩ := rfl
      refine ⟨i' + 1, hi2, ?_, ?_, ?_, ?_, ?_⟩
      · rw [hget]
        simp only [selectGo, if_neg hcond]
        exact hsel
      · rw [hget]; exact hmt
      · rw [hget]; exact hlt
      · intro r' hr' hmr'
        rw [hget]
        rcases List.mem_cons.mp hr' with h1 | h2
        · rw [h1]
          have h5 := hrle (h1 ▸ hmr')
          omega
        · exact hmax r' h2 hmr'
      · intro j hj hji hmj
        rw [hget]
        match j with
        | 0 =>
          have hget0 : (r :: rs).get ⟨0, hj⟩ = r := rfl
          rw [hget0] at hmj ⊢
          have h5 := hrle hmj
          omega
        | j' + 1 =>
          have hj' : j' < rs.length := by simpa using hj
          exact hearlier j' hj' (by omega) hmj


/-! ### Association-list (Python dict) lemmas shared by C9 and C10 -/

theorem lookup_insertKV_self (l : List (List Char × Json)) (k : List Char) (v : Json) :
    lookupKV (insertKV l k v) k = some v := by
  induction l with
  | nil => simp [insertKV, lookupKV]
  | cons p rest ih =>
    by_cases h : p.1 = k
    · simp [insertKV, lookupKV, h]
    · simp [insertKV, lookupKV, h, ih]

theorem lookup_insertKV_ne (l : List (List Char × Json)) (k q : List Char) (v : Json)
    (hne : q ≠ k) : lookupKV (insertKV l k v) q = lookupKV l q := by
  induction l with
  | nil => simp [insertKV, lookupKV, Ne.symm hne]
  | cons p rest ih =>
    by_cases h : p.1 = k
    · have h2 : ¬(p.1 = q) := fun he => hne (he.symm.trans h)
      simp [insertKV, lookupKV, h, h2, Ne.symm hne]
    · by_cases h2 : p.1 = q
      · simp [insertKV, lookupKV, h, h2, hne]
      · simp [insertKV, lookupKV, h, h2, ih]

theorem mem_keys_insertKV (l : List (List Char × Json)) (k q : List Char) (v : Json) :
    q ∈ (insertKV l k v).map Prod.fst ↔ q ∈ l.map Prod.fst ∨ q = k := by
  induction l with
  | nil => simp [insertKV]
  | cons p rest ih =>
    by_cases h : p.1 = k
    · subst h
      simp only [insertKV, if_pos]
      simp only [List.map_cons, List.mem_cons]
      tauto
    · simp only [insertKV, if_neg h, List.map_cons, List.mem_cons, ih]
      tauto

theorem insertKV_idem (l : List (List Char × Json)) (k : List Char) (v : Json) :
    insertKV (insertKV l k v) k v = insertKV l k v := by
  induction l with
  | nil => simp [insertKV]
  | cons p rest ih =>
    by_cases h : p.1 = k
    · simp [insertKV, h]
    · simp [insertKV, h, ih]

theorem insertKV_keys_nodup (l : List (List Char × Json)) (k : List Char) (v : Json)
    (h : (l.map Prod.fst).Nodup) : ((insertKV l k v).map Prod.fst).Nodup := by
  induction l with
  | nil => simp [insertKV]
  | cons p rest ih =>
    by_cases hk : p.1 = k
    · have heq : insertKV (p :: rest) k v = (p.1, v) :: rest := by
        simp only [insertKV, if_pos hk]
      rw [heq]
      simp only [List.map_cons] at h ⊢
      exact h
    · simp only [insertKV, if_neg hk, List.map_cons, List.nodup_cons] at h ⊢
      refine ⟨?_, ih h.2⟩
      intro hc
      rcases (mem_keys_insertKV rest k p.1 v).mp hc with h1 | h2
      · exact h.1 h1
      · exact hk h2
end VoiceAgent

namespace VoiceAgent

def callName (tc : Json) : List Char := (nameOfCall tc).getD []

theorem endsWithMeta_append (x : List Char) : endsWithMeta (x ++ strMetaSuffix) = true := by
  simp only [endsWithMeta, List.reverse_append]
  rw [List.isPrefixOf_iff_prefix]
  exact List.prefix_append _ _

/-- Result of the last call with the given tool name, if any. -/
def lastCallResult (env : AgentEnv) (ctxId : Option (List Char)) (calls : List Json)
    (name : List Char) : Option Json :=
  match calls with
  | [] => none
  | tc :: rest =>
    match lastCallResult env ctxId rest name with
    | some v => some v
    | none => if callName tc = name then some (execute_one env ctxId tc).2.1 else none

theorem execute_tools_foldl_lookup (env : AgentEnv) (ctxId : Option (List Char))
    (name : List Char) (hme : endsWithMeta name = false) :
    ∀ (calls : List Json) (acc : List (List Char × Json)),
    lookupKV (calls.foldl (execStep env ctxId) acc) name =
      (match lastCallResult env ctxId calls name with
       | some v => some v
       | none => lookupKV acc name) := by
  intro calls
  induction calls with
  | nil => intro acc; rfl
  | cons tc rest ih =>
    intro acc
    have hstep : lookupKV (execStep env ctxId acc tc) name =
        if callName tc = name then some (execute_one env ctxId tc).2.1
        else lookupKV acc name := by
      have h1 : callName tc = (execute_one env ctxId tc).1 := rfl
      have hnm : name ≠ (execute_one env ctxId tc).1 ++ strMetaSuffix := by
        intro he
        rw [he] at hme
        rw [endsWithMeta_append] at hme
        exact Bool.noConfusion hme
      simp only [execStep]
      by_cases h : callName tc = name
      · rw [if_pos h]
        have hn : (execute_one env ctxId tc).1 = name := h1.symm.trans h
        cases hm : (execute_one env ctxId tc).2.2 with
        | none => dsimp only; rw [hn]; exact lookup_insertKV_self _ _ _
        | some m =>
          by_cases ht : jTruthy m
          · dsimp only
            rw [if_pos ht, lookup_insertKV_ne _ _ _ _ hnm, hn]
            exact lookup_insertKV_self _ _ _
          · dsimp only
            rw [if_neg ht, hn]
            exact lookup_insertKV_self _ _ _
      · rw [if_neg h]
        have hne2 : name ≠ (execute_one env ctxId tc).1 := fun he => h (h1.trans he.symm)
        cases hm : (execute_one env ctxId tc).2.2 with
        | none => dsimp only; exact lookup_insertKV_ne _ _ _ _ hne2
        | some m =>
          by_cases ht : jTruthy m
          · dsimp only
            rw [if_pos ht, lookup_insertKV_ne _ _ _ _ hnm]
            exact lookup_insertKV_ne _ _ _ _ hne2
          · dsimp only
            rw [if_neg ht]
            exact lookup_insertKV_ne _ _ _ _ hne2
    show lookupKV (List.foldl (execStep env ctxId) (execStep env ctxId acc tc) rest) name = _
    rw [ih (execStep env ctxId acc tc)]
    cases hl : lastCallResult env ctxId rest name with
    | some v => simp [lastCallResult, hl]
    | none =>
      simp only [lastCallResult, hl, hstep]
      by_cases h : callName tc = name
      · simp [h]
      · simp [h]

theorem execute_tools_keys_nodup_go (env : AgentEnv) (ctxId : Option (List Char)) :
    ∀ (calls : List Json) (acc : List (List Char × Json)),
    (acc.map Prod.fst).Nodup →
    ((calls.foldl (execStep env ctxId) acc).map Prod.fst).Nodup := by
  intro calls
  induction calls with
  | nil => intro acc h; exact h
  | cons tc rest ih =>
    intro acc h
    refine ih _ ?_
    simp only [execStep]
    cases (execute_one env ctxId tc).2.2 with
    | none => exact insertKV_keys_nodup _ _ _ h
    | some m =>
      by_cases ht : jTruthy m
      · dsimp only
        rw [if_pos ht]
        exact insertKV_keys_nodup _ _ _ (insertKV_keys_nodup _ _ _ h)
      · dsimp only
        rw [if_neg ht]
        exact insertKV_keys_nodup _ _ _ h

theorem execute_tools_lookup (env : AgentEnv) (ctxId : Option (List Char))
    (calls : List Json) (name : List Char) (hme : endsWithMeta name = false) :
    lookupKV (execute_tools env ctxId calls) name = lastCallResult env ctxId calls name := by
  rw [execute_tools, execute_tools_foldl_lookup env ctxId name hme calls []]
  cases lastCallResult env ctxId calls name <;> rfl

/-- Two rules whose (empty-literal) regex matches every input. -/
def rLow : Rule :=
  { name := ['a'], patterns := [.lit []], responses := [['x']], priority := 10 }

def rHigh : Rule :=
  { name := ['b'], patterns := [.lit []], responses := [['y']], priority := 25 }

def rLow2 : Rule :=
  { name := ['c'], patterns := [.lit []], responses := [['z']], priority := 10 }

/-- C8.  The router normalizes the utterance (strip + lowercase) and
selects, among the rules with a matching pattern, one with maximal
priority such that every earlier matching rule has strictly smaller
priority — so the highest priority wins, and on equal priority the first
rule in list order wins.  The closed conjuncts instantiate the
order-independence of the 10-vs-25 case and the tie case. -/
theorem claim_C8_priority_precedence :
    (∀ (rules : List Rule) (u : List Char),
      (∃ r ∈ rules, rule_matches r (pylower (pstrip u)) ∧ -1 < r.priority) →
      ∃ (i : Nat) (hi : i < rules.length),
        select_rule rules (pylower (pstrip u)) = some (rules.get ⟨i, hi⟩) ∧
        rule_matches (rules.get ⟨i, hi⟩) (pylower (pstrip u)) = true ∧
        (∀ r ∈ rules, rule_matches r (pylower (pstrip u)) →
          r.priority ≤ (rules.get ⟨i, hi⟩).priority) ∧
        (∀ j (hj : j < rules.length), j < i →
          rule_matches (rules.get ⟨j, hj⟩) (pylower (pstrip u)) →
          (rules.get ⟨j, hj⟩).priority < (rules.get ⟨i, hi⟩).priority)) ∧
    (select_rule [rLow, rHigh] ['u'] = some rHigh ∧
     select_rule [rHigh, rLow] ['u'] = some rHigh) ∧
    select_rule [rLow, rLow2] ['u'] = some rLow := by
  refine ⟨?_, by decide, by decide⟩
  intro rules u h
  obtain ⟨i, hi, h1, h2, _h3, h4, h5⟩ := selectGo_found (pylower (pstrip u)) rules none (-1) h
  exact ⟨i, hi, h1, h2, h4, h5⟩

theorem claim_C8_priority_precedence_witness :
    ∃ (i : Nat) (hi : i < loadedRules.length),
      select_rule loadedRules (pylower (pstrip "おはよう".toList)) =
        some (loadedRules.get ⟨i, hi⟩) ∧
      rule_matches (loadedRules.get ⟨i, hi⟩) (pylower (pstrip "おはよう".toList)) = true ∧
      (∀ r ∈ loadedRules, rule_matches r (pylower (pstrip "おはよう".toList)) →
        r.priority ≤ (loadedRules.get ⟨i, hi⟩).priority) ∧
      (∀ j (hj : j < loadedRules.length), j < i →
        rule_matches (loadedRules.get ⟨j, hj⟩) (pylower (pstrip "おはよう".toList)) →
        (loadedRules.get ⟨j, hj⟩).priority < (loadedRules.get ⟨i, hi⟩).priority) :=
  claim_C8_priority_precedence.1 loadedRules "おはよう".toList (by decide)

/-! ### C9: placeholder email-id resolution -/

/-- An extracted action that is not named `gmail` but carries a
placeholder message id. -/
def c9NonGmail : Json :=
  Json.obj [(strName, .str "search".toList),
            (strParameters, .obj [(strMessageId, .str "メールID".toList)])]

/-- C9, counterexample.  "メールID" is a known placeholder phrase and the
stored id "abc123" is available, yet resolution leaves the extracted
action unchanged because its tool name is not `gmail` — so "for every
extracted action whose message-id parameter equals one of the known
placeholder phrases, resolution replaces the placeholder" is false as
stated. -/
theorem claim_C9_counterexample :
    isPlaceholderVal (Json.str "メールID".toList) = true ∧
    replace_placeholder_email_ids [c9NonGmail] "abc123".toList = [c9NonGmail] := by
  refine ⟨by decide, by decide⟩

/-- C9, amended: restricted to actions named `gmail`.  When a canonical id
is known, a gmail action's placeholder `message_id` is replaced by it and
every other parameter keeps its value; when neither the stored id nor the
history scan yields one, the whole call list — placeholders included — is
handed on unchanged. -/
theorem claim_C9_placeholder_resolution :
    (∀ (kvs params : List (List Char × Json)) (p actual : List Char),
      lookupKV kvs strName = some (.str strGmail) →
      lookupKV kvs strParameters = some (.obj params) →
      lookupKV params strMessageId = some (.str p) →
      placeholder_patterns.any (fun q => q = p) = true →
      replaceOneCall actual (.obj kvs) =
        .obj (insertKV kvs strParameters
          (.obj (insertKV params strMessageId (.str actual)))) ∧
      ∀ q, q ≠ strMessageId →
        lookupKV (insertKV params strMessageId (.str actual)) q = lookupKV params q) ∧
    (∀ (cfg : LLMConfig) (provs : List (List Char × ProviderM)) (sys : List Char)
       (context : List CtxMsg) (text : List Char) (ctxMgrId : Option (List Char))
       (resp : GenResponse),
      generate_with_fallback cfg provs
          (⟨strSystem, sys⟩ :: (takeLastN 10 context ++ [⟨strUser, text⟩])) = .ok resp →
      derive_latest_email_id ctxMgrId context = none →
      (process_with_tools cfg provs sys context text ctxMgrId).tool_calls =
        resp.tool_calls ++ parse_tool_calls resp.content) := by
  constructor
  · intro kvs params p actual hname hparams hmid hph
    constructor
    · simp only [replaceOneCall]
      rw [if_pos hname, hparams]
      dsimp only
      rw [hmid]
      dsimp only
      have hpv : isPlaceholderVal (.str p) = true := by
        simp only [isPlaceholderVal]
        exact hph
      rw [if_pos hpv]
      by_cases hrf :
        (lookupKV (insertKV params strMessageId (Json.str actual)) strActionK =
            some (.str strReply) &&
          (match lookupKV (insertKV params strMessageId (Json.str actual)) strMessageId with
           | none => true
           | some v => !jTruthy v || isPlaceholderVal v)) = true
      · rw [if_pos hrf, insertKV_idem]
      · rw [if_neg hrf]
    · intro q hq
      exact lookup_insertKV_ne params strMessageId q (.str actual) hq
  · intro cfg provs sys context text ctxMgrId resp hgen hderive
    simp only [process_with_tools, hgen, hderive]

/-- The parameter dict of the rule-built gmail reply call. -/
def c9Params : List (List Char × Json) :=
  [(strActionK, Json.str strReply),
   (strMessageId, Json.str "メールID".toList),
   ("body".toList, Json.str defaultReply)]

def c9Kvs : List (List Char × Json) :=
  [(strName, Json.str strGmail), (strParameters, Json.obj c9Params)]

theorem claim_C9_placeholder_resolution_witness :
    (replaceOneCall "abc123".toList (.obj c9Kvs) =
      .obj (insertKV c9Kvs strParameters
        (.obj (insertKV c9Params strMessageId (.str "abc123".toList)))) ∧
     ∀ q, q ≠ strMessageId →
       lookupKV (insertKV c9Params strMessageId (.str "abc123".toList)) q =
         lookupKV c9Params q) ∧
    (process_with_tools c2Cfg c2Provs [] [] ['t'] none).tool_calls =
      c2Resp.tool_calls ++ parse_tool_calls c2Resp.content :=
  ⟨claim_C9_placeholder_resolution.1 c9Kvs c9Params "メールID".toList "abc123".toList
      (by decide) (by decide) (by decide) (by decide),
   claim_C9_placeholder_resolution.2 c2Cfg c2Provs [] [] ['t'] none c2Resp
      (by rfl) (by rfl)⟩

/-! ### C10: the result map is keyed by tool name only -/

def c10Env : AgentEnv :=
  { executor := fun _ params =>
      match params with
      | .obj ps =>
        if lookupKV ps strActionK = some (.str "list".toList) then
          .ok (.toolResult (.str "LIST_RESULT".toList) none)
        else .ok (.toolResult (.str "REPLY_RESULT".toList) none)
      | _ => .ok (.plain .null),
    cfg := c2Cfg, provs := [], sysPrompt := [], ruleEnv := plainRuleEnv }

/-- C10.  The dispatch result map is keyed only by tool name: its keys are
pairwise distinct, and looking up a (non-metadata) tool name yields the
result of the *last* call with that name — earlier same-tool results are
overwritten.  Concretely, the rule-built gmail list-then-reply pair for
"返信して" produces two calls to the `gmail` tool, and the final map holds
only the reply result, so at most one non-metadata result per tool name
can reach the synthesis pass. -/
theorem claim_C10_result_map_overwrite :
    (∀ (env : AgentEnv) (ctxId : Option (List Char)) (calls : List Json),
      ((execute_tools env ctxId calls).map Prod.fst).Nodup) ∧
    (∀ (env : AgentEnv) (ctxId : Option (List Char)) (calls : List Json)
       (name : List Char), endsWithMeta name = false →
      lookupKV (execute_tools env ctxId calls) name = lastCallResult env ctxId calls name) ∧
    (suggest_gmail_tool_calls "返信して".toList).map callName = [strGmail, strGmail] ∧
    execute_tools c10Env none (suggest_gmail_tool_calls "返信して".toList) =
      [(strGmail, Json.str "REPLY_RESULT".toList)] := by
  refine ⟨?_, ?_, by decide, by decide⟩
  · intro env ctxId calls
    exact execute_tools_keys_nodup_go env ctxId calls [] (by simp)
  · intro env ctxId calls name hme
    exact execute_tools_lookup env ctxId calls name hme

theorem claim_C10_result_map_overwrite_witness :
    lookupKV (execute_tools c10Env none (suggest_gmail_tool_calls "返信して".toList))
        strGmail =
      lastCallResult c10Env none (suggest_gmail_tool_calls "返信して".toList) strGmail :=
  claim_C10_result_map_overwrite.2.1 c10Env none
    (suggest_gmail_tool_calls "返信して".toList) strGmail (by decide)

/-! ### C4: conversation-state pruning bound

The claimed scenario: `max_messages = 50`, a generous time window, the
single system turn installed at initialization, and 1,000 appended
user/assistant pairs (timestamps all inside the window; `now = 0`).
The kernel cannot evaluate the 2,000-step fold directly, so the run is
characterized by a steady-state invariant proved by induction. -/

def c4Sys : Msg := ⟨strSystem, systemInitMsg, 0⟩

def c4Init : CMState :=
  { messages := [c4Sys], max_messages := 50, context_window := 1000000 }

def natStr (k : Nat) : List Char := intStr k

def mkC4Msg (k : Nat) : Msg :=
  ⟨if k % 2 = 1 then strUser else strAssistant, natStr k, 0⟩

def c4PairStep (st : CMState) (n : Nat) : CMState :=
  add_assistant_message 0 (add_user_message 0 st (natStr (2 * n + 1))) (natStr (2 * n + 2))

def c4Simulate : Nat → CMState
  | 0 => c4Init
  | n + 1 => c4PairStep (c4Simulate n) n

theorem cleanup_messages_congr (now : Int) (st st' : CMState)
    (h1 : st.messages = st'.messages) (h2 : st.max_messages = st'.max_messages)
    (h3 : st.context_window = st'.context_window) :
    (cleanup_old_messages now st).messages = (cleanup_old_messages now st').messages := by
  simp only [cleanup_old_messages, h1, h2, h3]

theorem update_topic_pres (st : CMState) (u : List Char) :
    (update_topic st u).messages = st.messages ∧
    (update_topic st u).max_messages = st.max_messages ∧
    (update_topic st u).context_window = st.context_window := by
  simp only [update_topic]
  cases topicTable.find? (fun p => p.2.any (fun k => isSubstr k u)) with
  | none => exact ⟨rfl, rfl, rfl⟩
  | some p =>
    dsimp only
    by_cases h : st.current_topic = some p.1
    · rw [if_pos h]; exact ⟨rfl, rfl, rfl⟩
    · rw [if_neg h]; exact ⟨rfl, rfl, rfl⟩

theorem cleanup_pres (now : Int) (st : CMState) :
    (cleanup_old_messages now st).max_messages = st.max_messages ∧
    (cleanup_old_messages now st).context_window = st.context_window := ⟨rfl, rfl⟩

theorem add_user_pres (now : Int) (st : CMState) (c : List Char) :
    (add_user_message now st c).max_messages = st.max_messages ∧
    (add_user_message now st c).context_window = st.context_window := by
  simp only [add_user_message]
  have h := update_topic_pres { st with messages := st.messages ++ [⟨strUser, c, now⟩] } c
  exact ⟨by rw [(cleanup_pres _ _).1, h.2.1], by rw [(cleanup_pres _ _).2, h.2.2]⟩

theorem add_assistant_pres (now : Int) (st : CMState) (c : List Char) :
    (add_assistant_message now st c).max_messages = st.max_messages ∧
    (add_assistant_message now st c).context_window = st.context_window :=
  ⟨rfl, rfl⟩

/-- Core single-append steady-state step: with the window full (one system
turn plus 49 non-system turns), appending one non-system message evicts
exactly the oldest non-system turn. -/
theorem append_steady_core (st : CMState) (hmax : st.max_messages = 50)
    (hw : st.context_window = 1000000)
    (l : List Msg) (hmsgs : st.messages = c4Sys :: l) (hlen : l.length = 49)
    (hroles : ∀ x ∈ l, ¬(x.role = strSystem)) (hts : ∀ x ∈ l, x.timestamp = 0)
    (m : Msg) (hmrole : ¬(m.role = strSystem)) (hmts : m.timestamp = 0) :
    (cleanup_old_messages 0 { st with messages := st.messages ++ [m] }).messages =
      c4Sys :: (l.drop 1 ++ [m]) := by
  simp only [cleanup_old_messages, hmsgs, hmax, hw]
  have hlen2 : (((c4Sys :: l) ++ [m]).length) = 51 := by
    simp [hlen]
  rw [if_pos (by rw [hlen2]; omega)]
  have hsysfilter : ((c4Sys :: l) ++ [m]).filter (fun x => x.role = strSystem) = [c4Sys] := by
    rw [List.cons_append, List.filter_cons_of_pos (by decide)]
    congr 1
    rw [List.filter_eq_nil]
    intro x hx
    rcases List.mem_append.mp hx with h1 | h2
    · simpa using hroles x h1
    · simp only [List.mem_singleton] at h2
      subst h2
      simpa using hmrole
  have hothfilter : ((c4Sys :: l) ++ [m]).filter (fun x => !(x.role = strSystem)) = l ++ [m] := by
    rw [List.cons_append, List.filter_cons_of_neg (by decide)]
    rw [List.filter_eq_self]
    intro x hx
    rcases List.mem_append.mp hx with h1 | h2
    · simpa using hroles x h1
    · simp only [List.mem_singleton] at h2
      subst h2
      simpa using hmrole
  rw [hsysfilter, hothfilter]
  have hkeep : ((50 : Nat) : Int) - (([c4Sys] : List Msg).length : Int) = 49 := by simp
  rw [hkeep]
  rw [if_pos (by omega)]
  have htake : takeLastN (Int.toNat 49) (l ++ [m]) = l.drop 1 ++ [m] := by
    simp only [takeLastN]
    have : (l ++ [m]).length = 50 := by simp [hlen]
    rw [this]
    show (l ++ [m]).drop 1 = l.drop 1 ++ [m]
    rw [List.drop_append_of_le_length (by omega)]
  rw [htake]
  rw [List.filter_eq_self.mpr ?hall]
  · rfl
  case hall =>
    intro x hx
    rcases List.mem_append.mp hx with h1 | h2
    · simp only [List.mem_singleton] at h1
      subst h1
      simp [c4Sys, strSystem]
    · rcases List.mem_append.mp h2 with h3 | h4
      · have hx0 := hts x (List.mem_of_mem_drop h3)
        simp [hx0]
      · simp only [List.mem_singleton] at h4
        subst h4
        simp [hmts]





theorem add_user_messages_steady (st : CMState) (hmax : st.max_messages = 50)
    (hw : st.context_window = 1000000)
    (l : List Msg) (hmsgs : st.messages = c4Sys :: l) (hlen : l.length = 49)
    (hroles : ∀ x ∈ l, ¬(x.role = strSystem)) (hts : ∀ x ∈ l, x.timestamp = 0)
    (c : List Char) :
    (add_user_message 0 st c).messages = c4Sys :: (l.drop 1 ++ [⟨strUser, c, 0⟩]) := by
  simp only [add_user_message]
  have hpres := update_topic_pres { st with messages := st.messages ++ [⟨strUser, c, 0⟩] } c
  rw [cleanup_messages_congr 0 _ { st with messages := st.messages ++ [⟨strUser, c, 0⟩] }
    hpres.1 hpres.2.1 hpres.2.2]
  exact append_steady_core st hmax hw l hmsgs hlen hroles hts ⟨strUser, c, 0⟩
    (show ¬(strUser = strSystem) by decide) rfl

theorem add_assistant_messages_steady (st : CMState) (hmax : st.max_messages = 50)
    (hw : st.context_window = 1000000)
    (l : List Msg) (hmsgs : st.messages = c4Sys :: l) (hlen : l.length = 49)
    (hroles : ∀ x ∈ l, ¬(x.role = strSystem)) (hts : ∀ x ∈ l, x.timestamp = 0)
    (c : List Char) :
    (add_assistant_message 0 st c).messages = c4Sys :: (l.drop 1 ++ [⟨strAssistant, c, 0⟩]) := by
  simp only [add_assistant_message]
  exact append_steady_core st hmax hw l hmsgs hlen hroles hts ⟨strAssistant, c, 0⟩
    (show ¬(strAssistant = strSystem) by decide) rfl

def c4Window (n : Nat) : List Msg :=
  (List.range' (2 * n - 48) 49).map mkC4Msg

theorem c4Window_length (n : Nat) : (c4Window n).length = 49 := by
  simp [c4Window]

theorem c4Window_roles (n : Nat) : ∀ x ∈ c4Window n, ¬(x.role = strSystem) := by
  intro x hx
  rcases List.mem_map.mp hx with ⟨k, _, hk⟩
  subst hk
  simp only [mkC4Msg]
  by_cases h : k % 2 = 1
  · rw [if_pos h]; exact (show ¬(strUser = strSystem) by decide)
  · rw [if_neg h]; exact (show ¬(strAssistant = strSystem) by decide)

theorem c4Window_ts (n : Nat) : ∀ x ∈ c4Window n, x.timestamp = 0 := by
  intro x hx
  rcases List.mem_map.mp hx with ⟨k, _, hk⟩
  subst hk
  rfl

theorem c4_fields (n : Nat) :
    (c4Simulate n).max_messages = 50 ∧ (c4Simulate n).context_window = 1000000 := by
  induction n with
  | zero => exact ⟨rfl, rfl⟩
  | succ n ih =>
    simp only [c4Simulate, c4PairStep]
    rw [(add_assistant_pres _ _ _).1, (add_user_pres _ _ _).1,
        (add_assistant_pres _ _ _).2, (add_user_pres _ _ _).2]
    exact ⟨ih.1, ih.2⟩

theorem c4Window_shift (n : Nat) (hn : 25 ≤ n) :
    (c4Window n).drop 2 ++ [mkC4Msg (2 * n + 1), mkC4Msg (2 * n + 2)] = c4Window (n + 1) := by
  have hs : 2 * n - 48 + 2 = 2 * (n + 1) - 48 := by omega
  have hsplit : List.range' (2 * n - 48) 49 =
      List.range' (2 * n - 48) 2 ++ List.range' (2 * n - 48 + 2) 47 := by
    have h := List.range'_append (2 * n - 48) 2 47 1
    simp only [one_mul] at h
    rw [← h]
  have hdrop : (List.range' (2 * n - 48) 49).drop 2 = List.range' (2 * n - 48 + 2) 47 := by
    rw [hsplit]
    exact List.drop_left' (by simp)
  have htail : List.range' (2 * n - 48 + 2) 47 ++ [2 * n + 1, 2 * n + 2] =
      List.range' (2 * n - 48 + 2) 49 := by
    have h := List.range'_append (2 * n - 48 + 2) 47 2 1
    simp only [one_mul] at h
    have h1 : 2 * n - 48 + 2 + 47 = 2 * n + 1 := by omega
    rw [h1] at h
    have h2 : List.range' (2 * n + 1) 2 = [2 * n + 1, 2 * n + 2] := rfl
    rw [h2] at h
    exact h
  have hstep1 : (c4Window n).drop 2 = (List.range' (2 * n - 48 + 2) 47).map mkC4Msg := by
    rw [c4Window, ← List.map_drop, hdrop]
  rw [hstep1]
  have hstep2 : ([mkC4Msg (2 * n + 1), mkC4Msg (2 * n + 2)] : List Msg) =
      ([2 * n + 1, 2 * n + 2] : List Nat).map mkC4Msg := rfl
  rw [hstep2, ← List.map_append, htail, c4Window, hs]





theorem c4_base : (c4Simulate 25).messages = c4Sys :: c4Window 25 := by decide





theorem c4_invariant : ∀ k, (c4Simulate (25 + k)).messages = c4Sys :: c4Window (25 + k) := by
  intro k
  induction k with
  | zero => exact c4_base
  | succ k ih =>
    have hf := c4_fields (25 + k)
    have hu : (2 * (25 + k) + 1) % 2 = 1 := by omega
    have ha : (2 * (25 + k) + 2) % 2 = 0 := by omega
    have h1 := add_user_messages_steady (c4Simulate (25 + k)) hf.1 hf.2
      (c4Window (25 + k)) ih (c4Window_length _) (c4Window_roles _) (c4Window_ts _)
      (natStr (2 * (25 + k) + 1))
    have hf1 : (add_user_message 0 (c4Simulate (25 + k)) (natStr (2 * (25 + k) + 1))).max_messages = 50 ∧
        (add_user_message 0 (c4Simulate (25 + k)) (natStr (2 * (25 + k) + 1))).context_window = 1000000 := by
      constructor
      · rw [(add_user_pres _ _ _).1]; exact hf.1
      · rw [(add_user_pres _ _ _).2]; exact hf.2
    have hlen1 : ((c4Window (25 + k)).drop 1 ++
        [(⟨strUser, natStr (2 * (25 + k) + 1), 0⟩ : Msg)]).length = 49 := by
      simp [c4Window_length]
    have hroles1 : ∀ x ∈ (c4Window (25 + k)).drop 1 ++
        [(⟨strUser, natStr (2 * (25 + k) + 1), 0⟩ : Msg)], ¬(x.role = strSystem) := by
      intro x hx
      rcases List.mem_append.mp hx with h3 | h4
      · exact c4Window_roles _ x (List.mem_of_mem_drop h3)
      · simp only [List.mem_singleton] at h4
        subst h4
        exact (show ¬(strUser = strSystem) by decide)
    have hts1 : ∀ x ∈ (c4Window (25 + k)).drop 1 ++
        [(⟨strUser, natStr (2 * (25 + k) + 1), 0⟩ : Msg)], x.timestamp = 0 := by
      intro x hx
      rcases List.mem_append.mp hx with h3 | h4
      · exact c4Window_ts _ x (List.mem_of_mem_drop h3)
      · simp only [List.mem_singleton] at h4
        subst h4
        rfl
    have h2 := add_assistant_messages_steady _ hf1.1 hf1.2 _ h1 hlen1 hroles1 hts1
      (natStr (2 * (25 + k) + 2))
    show (c4PairStep (c4Simulate (25 + k)) (25 + k)).messages = _
    simp only [c4PairStep]
    rw [h2]
    congr 1
    have hdd : ((c4Window (25 + k)).drop 1 ++
        [(⟨strUser, natStr (2 * (25 + k) + 1), 0⟩ : Msg)]).drop 1 =
        (c4Window (25 + k)).drop 2 ++ [(⟨strUser, natStr (2 * (25 + k) + 1), 0⟩ : Msg)] := by
      rw [List.drop_append_of_le_length (by simp [c4Window_length])]
      rw [List.drop_drop]
    rw [hdd, List.append_assoc]
    have hmk1 : (⟨strUser, natStr (2 * (25 + k) + 1), 0⟩ : Msg) = mkC4Msg (2 * (25 + k) + 1) := by
      simp only [mkC4Msg]
      rw [if_pos hu]
    have hmk2 : (⟨strAssistant, natStr (2 * (25 + k) + 2), 0⟩ : Msg) = mkC4Msg (2 * (25 + k) + 2) := by
      simp only [mkC4Msg]
      rw [if_neg (by omega)]
    rw [hmk1, hmk2]
    have hfin := c4Window_shift (25 + k) (by omega)
    show (c4Window (25 + k)).drop 2 ++ [mkC4Msg (2 * (25 + k) + 1), mkC4Msg (2 * (25 + k) + 2)] =
      c4Window (25 + (k + 1))
    exact hfin.trans rfl

def countNonSystem (st : CMState) : Nat :=
  (st.messages.filter (fun m => !(m.role = strSystem))).length

def countSystem (st : CMState) : Nat :=
  (st.messages.filter (fun m => m.role = strSystem)).length

theorem c4_window_filter (n : Nat) :
    (c4Window n).filter (fun m => !(m.role = strSystem)) = c4Window n := by
  rw [List.filter_eq_self]
  intro x hx
  simpa using c4Window_roles n x hx

/-- C4, counterexample.  In exactly the claimed scenario (max-count 50,
generous window, pruning after every append, 1,000 user/assistant pairs,
one initialization system turn) the retained non-system turn count is 49,
not the claimed 50: the count bound of `_cleanup_old_messages` keeps
`max_messages - (number of system turns)` non-system messages, because
system turns are retained but still consume the budget. -/
theorem claim_C4_counterexample :
    countNonSystem (c4Simulate 1000) = 49 ∧ ¬(countNonSystem (c4Simulate 1000) = 50) := by
  have h : (c4Simulate 1000).messages = c4Sys :: c4Window 1000 := c4_invariant 975
  have hcount : countNonSystem (c4Simulate 1000) = 49 := by
    simp only [countNonSystem]
    rw [h, List.filter_cons_of_neg (by decide), c4_window_filter, c4Window_length]
  exact ⟨hcount, by rw [hcount]; decide⟩

/-- C4, amended.  The same 1,000-pair scenario leaves exactly
`max_messages - S = 49` non-system turns (`S = 1` system turn), namely the
most recent 49 appended messages in order, preceded by the retained
system turn: system turns are never evicted but count against the
max-count bound, so the claimed figure 50 holds only when no system turn
exists. -/
theorem claim_C4_pruning_bound :
    (c4Simulate 1000).messages = c4Sys :: (List.range' 1952 49).map mkC4Msg ∧
    countNonSystem (c4Simulate 1000) = 49 ∧
    countSystem (c4Simulate 1000) = 1 := by
  have h : (c4Simulate 1000).messages = c4Sys :: c4Window 1000 := c4_invariant 975
  refine ⟨h, ?_, ?_⟩
  · simp only [countNonSystem]
    rw [h, List.filter_cons_of_neg (by decide), c4_window_filter, c4Window_length]
  · simp only [countSystem]
    rw [h, List.filter_cons_of_pos (by decide)]
    have hnil : (c4Window 1000).filter (fun m => m.role = strSystem) = [] := by
      rw [List.filter_eq_nil_iff]
      intro x hx
      simpa using c4Window_roles 1000 x hx
    rw [hnil]
    rfl

end VoiceAgent

namespace VoiceAgent

/-- Specification-side list of the providers the fallback protocol
attempts, in order: available primary, then (under `auto_fallback`) the
available configured fallback, then the remaining available providers in
registration order. -/
def attemptOrder (cfg : LLMConfig) (provs : List (List Char × ProviderM)) :
    List ProviderM :=
  (match lookupProv provs cfg.primary with
   | some p => if p.available then [p] else []
   | none => []) ++
  ((if cfg.autoFallback then
     match cfg.fallback with
     | some fb =>
       match lookupProv provs fb with
       | some p => if p.available then [p] else []
       | none => []
     | none => []
   else []) ++
  provs.filterMap (fun q =>
    if q.2.available && !(q.1 = cfg.primary) && !(cfg.fallback = some q.1) then some q.2
    else none))

/-- First successful generation along a list of providers. -/
def firstGen (msgs : List CtxMsg) : List ProviderM → Option GenResponse
  | [] => none
  | p :: rest =>
    match p.gen msgs with
    | some r => some r
    | none => firstGen msgs rest

theorem firstGen_append (msgs : List CtxMsg) (a b : List ProviderM) :
    firstGen msgs (a ++ b) =
      (match firstGen msgs a with
       | some r => some r
       | none => firstGen msgs b) := by
  induction a with
  | nil => rfl
  | cons p rest ih =>
    simp only [List.cons_append, firstGen]
    cases p.gen msgs with
    | some r => rfl
    | none => exact ih

theorem firstGen_none_iff (msgs : List CtxMsg) (l : List ProviderM) :
    firstGen msgs l = none ↔ ∀ p ∈ l, p.gen msgs = none := by
  induction l with
  | nil => simp [firstGen]
  | cons p rest ih =>
    simp only [firstGen]
    cases hp : p.gen msgs with
    | some r =>
      simp only [List.mem_cons]
      constructor
      · intro h; exact absurd h (by simp)
      · intro h
        have := h p (Or.inl rfl)
        rw [hp] at this
        exact absurd this (by simp)
    | none =>
      rw [ih]
      constructor
      · intro h q hq
        rcases List.mem_cons.mp hq with h1 | h2
        · subst h1; exact hp
        · exact h q h2
      · intro h q hq
        exact h q (List.mem_cons_of_mem _ hq)

theorem tryRemaining_eq_firstGen (cfg : LLMConfig) (msgs : List CtxMsg) :
    ∀ provs : List (List Char × ProviderM),
    tryRemaining cfg msgs provs =
      firstGen msgs (provs.filterMap (fun q =>
        if q.2.available && !(q.1 = cfg.primary) && !(cfg.fallback = some q.1) then some q.2
        else none)) := by
  intro provs
  induction provs with
  | nil => rfl
  | cons q rest ih =>
    obtain ⟨n, p⟩ := q
    simp only [tryRemaining, List.filterMap_cons]
    by_cases h : (p.available && !(n = cfg.primary) && !(cfg.fallback = some n)) = true
    · rw [if_pos h]
      simp only [h, if_pos]
      simp only [firstGen]
      cases p.gen msgs with
      | some r => rfl
      | none => exact ih
    · rw [if_neg h]
      simp only [if_neg h]
      exact ih

theorem generate_with_fallback_eq_firstGen (cfg : LLMConfig)
    (provs : List (List Char × ProviderM)) (msgs : List CtxMsg) :
    generate_with_fallback cfg provs msgs =
      (match firstGen msgs (attemptOrder cfg provs) with
       | some r => .ok r
       | none => .error ()) := by
  simp only [generate_with_fallback, attemptOrder, tryRemaining_eq_firstGen]
  rw [firstGen_append, firstGen_append]
  cases h1 : lookupProv provs cfg.primary with
  | none =>
    cases hab : cfg.autoFallback with
    | false => cases firstGen msgs (provs.filterMap _) <;> simp_all [firstGen]
    | true =>
      cases h2 : cfg.fallback with
      | none => cases firstGen msgs (provs.filterMap _) <;> simp_all [firstGen]
      | some fb =>
        cases h3 : lookupProv provs fb with
        | none => cases firstGen msgs (provs.filterMap _) <;> simp_all [firstGen]
        | some p2 =>
          cases hav2 : p2.available with
          | false => cases firstGen msgs (provs.filterMap _) <;> simp_all [firstGen]
          | true =>
            cases hg2 : p2.gen msgs with
            | none => cases firstGen msgs (provs.filterMap _) <;> simp_all [firstGen]
            | some r => simp_all [firstGen]
  | some p =>
    cases hav : p.available with
    | false =>
      cases hab : cfg.autoFallback with
      | false => cases firstGen msgs (provs.filterMap _) <;> simp_all [firstGen]
      | true =>
        cases h2 : cfg.fallback with
        | none => cases firstGen msgs (provs.filterMap _) <;> simp_all [firstGen]
        | some fb =>
          cases h3 : lookupProv provs fb with
          | none => cases firstGen msgs (provs.filterMap _) <;> simp_all [firstGen]
          | some p2 =>
            cases hav2 : p2.available with
            | false => cases firstGen msgs (provs.filterMap _) <;> simp_all [firstGen]
            | true =>
              cases hg2 : p2.gen msgs with
              | none => cases firstGen msgs (provs.filterMap _) <;> simp_all [firstGen]
              | some r => simp_all [firstGen]
    | true =>
      cases hg : p.gen msgs with
      | some r => simp_all [firstGen]
      | none =>
        cases hab : cfg.autoFallback with
        | false => cases firstGen msgs (provs.filterMap _) <;> simp_all [firstGen]
        | true =>
          cases h2 : cfg.fallback with
          | none => cases firstGen msgs (provs.filterMap _) <;> simp_all [firstGen]
          | some fb =>
            cases h3 : lookupProv provs fb with
            | none => cases firstGen msgs (provs.filterMap _) <;> simp_all [firstGen]
            | some p2 =>
              cases hav2 : p2.available with
              | false => cases firstGen msgs (provs.filterMap _) <;> simp_all [firstGen]
              | true =>
                cases hg2 : p2.gen msgs with
                | none => cases firstGen msgs (provs.filterMap _) <;> simp_all [firstGen]
                | some r => simp_all [firstGen]

end VoiceAgent

namespace VoiceAgent

theorem lookupProv_mem : ∀ (provs : List (List Char × ProviderM)) (n : List Char)
    (p : ProviderM), lookupProv provs n = some p → (n, p) ∈ provs := by
  intro provs
  induction provs with
  | nil => intro n p h; exact absurd h (by simp [lookupProv])
  | cons q rest ih =>
    intro n p h
    obtain ⟨n0, p0⟩ := q
    simp only [lookupProv] at h
    by_cases he : n0 = n
    · rw [if_pos he] at h
      have hp := Option.some.inj h
      rw [he, hp]
      exact List.mem_cons_self _ _
    · rw [if_neg he] at h
      exact List.mem_cons_of_mem _ (ih n p h)

theorem lookupProv_of_mem_nodup : ∀ (provs : List (List Char × ProviderM)) (n : List Char)
    (p : ProviderM), (provs.map Prod.fst).Nodup → (n, p) ∈ provs →
    lookupProv provs n = some p := by
  intro provs
  induction provs with
  | nil => intro n p _ h; exact absurd h (by simp)
  | cons q rest ih =>
    intro n p hnd hmem
    obtain ⟨n0, p0⟩ := q
    simp only [List.map_cons, List.nodup_cons] at hnd
    rcases List.mem_cons.mp hmem with h1 | h2
    · obtain ⟨he1, he2⟩ := Prod.mk.injEq .. |>.mp h1.symm
      simp only [lookupProv, he1]
      simp [he2]
    · simp only [lookupProv]
      by_cases he : n0 = n
      · exfalso
        apply hnd.1
        rw [he]
        exact List.mem_map.mpr ⟨(n, p), h2, rfl⟩
      · rw [if_neg he]
        exact ih n p hnd.2 h2

theorem attemptOrder_sub (cfg : LLMConfig) (provs : List (List Char × ProviderM))
    (p : ProviderM) (hp : p ∈ attemptOrder cfg provs) :
    (∃ n, (n, p) ∈ provs) ∧ p.available = true := by
  simp only [attemptOrder] at hp
  rcases List.mem_append.mp hp with h1 | h23
  · cases hl : lookupProv provs cfg.primary with
    | none => rw [hl] at h1; simp at h1
    | some p0 =>
      rw [hl] at h1
      by_cases hav : p0.available = true
      · simp only [hav, if_true, List.mem_singleton] at h1
        subst h1
        exact ⟨⟨cfg.primary, lookupProv_mem provs cfg.primary p hl⟩, hav⟩
      · simp [hav] at h1
  · rcases List.mem_append.mp h23 with h2 | h3
    · by_cases hab : cfg.autoFallback = true
      · rw [if_pos hab] at h2
        cases hf : cfg.fallback with
        | none => rw [hf] at h2; simp at h2
        | some fb =>
          rw [hf] at h2
          dsimp only at h2
          cases hl : lookupProv provs fb with
          | none => rw [hl] at h2; simp at h2
          | some p0 =>
            rw [hl] at h2
            dsimp only at h2
            by_cases hav : p0.available = true
            · simp only [hav, if_true, List.mem_singleton] at h2
              subst h2
              exact ⟨⟨fb, lookupProv_mem provs fb p hl⟩, hav⟩
            · simp [hav] at h2
      · rw [if_neg hab] at h2; simp at h2
    · rcases List.mem_filterMap.mp h3 with ⟨q, hq, hcond⟩
      by_cases hc : (q.2.available && !(q.1 = cfg.primary) && !(cfg.fallback = some q.1)) = true
      · rw [if_pos hc] at hcond
        have hqp := Option.some.inj hcond
        subst hqp
        simp only [Bool.and_eq_true] at hc
        exact ⟨⟨q.1, by simpa using hq⟩, hc.1.1⟩
      · rw [if_neg hc] at hcond
        exact absurd hcond (by simp)

theorem attemptOrder_complete (cfg : LLMConfig) (provs : List (List Char × ProviderM))
    (hnd : (provs.map Prod.fst).Nodup) (hab : cfg.autoFallback = true)
    (n : List Char) (p : ProviderM) (hmem : (n, p) ∈ provs) (hav : p.available = true) :
    p ∈ attemptOrder cfg provs := by
  simp only [attemptOrder]
  by_cases hprim : n = cfg.primary
  · apply List.mem_append.mpr
    left
    rw [← hprim, lookupProv_of_mem_nodup provs n p hnd hmem]
    dsimp only
    rw [if_pos hav]
    exact List.mem_singleton.mpr rfl
  · by_cases hfb : cfg.fallback = some n
    · apply List.mem_append.mpr
      right
      apply List.mem_append.mpr
      left
      rw [if_pos hab, hfb]
      dsimp only
      rw [lookupProv_of_mem_nodup provs n p hnd hmem]
      dsimp only
      rw [if_pos hav]
      exact List.mem_singleton.mpr rfl
    · apply List.mem_append.mpr
      right
      apply List.mem_append.mpr
      right
      apply List.mem_filterMap.mpr
      refine ⟨(n, p), hmem, ?_⟩
      rw [if_pos ?hc]
      case hc =>
        simp only [Bool.and_eq_true, Bool.not_eq_true']
        refine ⟨⟨hav, ?_⟩, ?_⟩
        · exact decide_eq_false hprim
        · exact decide_eq_false hfb

theorem generate_with_fallback_error_iff (cfg : LLMConfig)
    (provs : List (List Char × ProviderM)) (msgs : List CtxMsg)
    (hab : cfg.autoFallback = true) (hnd : (provs.map Prod.fst).Nodup) :
    generate_with_fallback cfg provs msgs = .error () ↔
      ∀ q ∈ provs, q.2.available = true → q.2.gen msgs = none := by
  rw [generate_with_fallback_eq_firstGen]
  constructor
  · intro h q hq hav
    cases hfg : firstGen msgs (attemptOrder cfg provs) with
    | some r => rw [hfg] at h; exact absurd h (by simp)
    | none =>
      have hall := (firstGen_none_iff msgs _).mp hfg
      exact hall q.2 (attemptOrder_complete cfg provs hnd hab q.1 q.2 (by simpa using hq) hav)
  · intro h
    have hfg : firstGen msgs (attemptOrder cfg provs) = none := by
      apply (firstGen_none_iff msgs _).mpr
      intro p hp
      obtain ⟨⟨n, hmem⟩, hav⟩ := attemptOrder_sub cfg provs p hp
      exact h (n, p) hmem hav
    rw [hfg]

end VoiceAgent

namespace VoiceAgent

/-- C5.  The facade's fallback protocol: (1) generation is the first
success along `attemptOrder` — the available primary, then (under
`auto_fallback`) the available configured secondary, then every remaining
available provider in registration order; (2) with `auto_fallback` on and
distinct provider names, generation raises iff every available provider
fails, i.e. only exhaustion is terminal; (3, 4) an exhausted reasoning or
synthesis pass is surfaced as the fixed generic failure text with no tool
calls, never as a raw exception. -/
theorem claim_C5_provider_fallback :
    (∀ (cfg : LLMConfig) (provs : List (List Char × ProviderM)) (msgs : List CtxMsg),
      generate_with_fallback cfg provs msgs =
        (match firstGen msgs (attemptOrder cfg provs) with
         | some r => .ok r
         | none => .error ())) ∧
    (∀ (cfg : LLMConfig) (provs : List (List Char × ProviderM)) (msgs : List CtxMsg),
      cfg.autoFallback = true → (provs.map Prod.fst).Nodup →
      (generate_with_fallback cfg provs msgs = .error () ↔
        ∀ q ∈ provs, q.2.available = true → q.2.gen msgs = none)) ∧
    (∀ (cfg : LLMConfig) (provs : List (List Char × ProviderM)) (sys : List Char)
       (context : List CtxMsg) (text : List Char) (ctxId : Option (List Char)),
      generate_with_fallback cfg provs
          (⟨strSystem, sys⟩ :: (takeLastN 10 context ++ [⟨strUser, text⟩])) = .error () →
      process_with_tools cfg provs sys context text ctxId =
        { response := genericErrorMsg, tool_calls := [], hadError := true }) ∧
    (∀ (cfg : LLMConfig) (provs : List (List Char × ProviderM)) (orig : List Char)
       (tool_results : List (List Char × Json)) (context : List CtxMsg),
      generate_with_fallback cfg provs
          (⟨strSystem, synthSystemPrompt⟩ :: (takeLastN 5 context ++
            [⟨strUser, "元のリクエスト: ".toList ++ orig ++
              "\n\nツール実行結果:\n".toList ++ format_tool_results tool_results ++
              "\n\n上記の結果を1〜2文以内で簡潔に伝えてください。".toList⟩])) = .error () →
      generate_final_response cfg provs orig tool_results context = synthErrorMsg) := by
  refine ⟨generate_with_fallback_eq_firstGen, ?_, ?_, ?_⟩
  · intro cfg provs msgs hab hnd
    exact generate_with_fallback_error_iff cfg provs msgs hab hnd
  · intro cfg provs sys context text ctxId h
    simp only [process_with_tools, h]
  · intro cfg provs orig tool_results context h
    simp only [generate_final_response, h]

def c5Provs : List (List Char × ProviderM) :=
  [("claude".toList, { available := true, gen := fun _ => none }),
   ("ollama".toList, { available := false, gen := fun _ => none }),
   ("openai".toList, { available := true, gen := fun _ => none })]

theorem claim_C5_provider_fallback_witness :
    (generate_with_fallback c2Cfg c5Provs [] = .error () ↔
      ∀ q ∈ c5Provs, q.2.available = true → q.2.gen [] = none) ∧
    process_with_tools c2Cfg c5Provs [] [] [] none =
      { response := genericErrorMsg, tool_calls := [], hadError := true } :=
  ⟨claim_C5_provider_fallback.2.1 c2Cfg c5Provs [] rfl (by decide),
   claim_C5_provider_fallback.2.2.1 c2Cfg c5Provs [] [] [] none (by rfl)⟩

end VoiceAgent

namespace VoiceAgent

def c3State : AgentState := { context := initCMState, initialized := true }

def c3Call : Json :=
  .obj [(strName, .str "gmail".toList),
        (strParameters, .obj [("action".toList, Json.str "send".toList)])]

def c3Env : AgentEnv :=
  { executor := fun _ _ => .ok (.toolResult (.str "MAIL_SENT".toList) none),
    cfg := c2Cfg, provs := [], sysPrompt := [], ruleEnv := plainRuleEnv }

def c3AiEnv : AgentEnv :=
  { executor := fun _ _ => .ok (.toolResult (.str "MAIL_SENT".toList) none),
    cfg := c2Cfg,
    provs := [("claude".toList,
      { available := true,
        gen := fun _ => some { content := "ok".toList, tool_calls := [c3Call] } })],
    sysPrompt := [], ruleEnv := plainRuleEnv }

def c3Synth (tag : List Char) :
    List Char → List (List Char × Json) → List CtxMsg → List Char :=
  fun _ _ _ => tag

def c3RR : RuleResponse :=
  { rule_name := "gmail_send".toList, response := [], priority := 40,
    is_final := false, tool_calls := [c3Call] }

/-- C3, counterexample.  A Turn through the rule-proposed-tools branch
dispatches one action yet its final reply is the first non-metadata tool
result rendered as text, not a synthesis-pass output: the branch is
invariant under exchanging the synthesis function for another with
different output, so no synthesis pass contributes to the reply. -/
theorem claim_C3_counterexample :
    c3RR.tool_calls.length = 1 ∧
    (rule_tool_branch c3Env (c3Synth "A".toList) 1 c3State c3RR).1 =
      .ok "MAIL_SENT".toList c3RR.tool_calls (some c3RR.rule_name) ∧
    rule_tool_branch c3Env (c3Synth "A".toList) 1 c3State c3RR =
      rule_tool_branch c3Env (c3Synth "B".toList) 1 c3State c3RR ∧
    c3Synth "A".toList [] [] [] ≠ c3Synth "B".toList [] [] [] := by
  refine ⟨rfl, by decide, rfl, by decide⟩

/-- First non-metadata dispatch result rendered as text, with the fixed
completion fallback (`agent.py:194-201`). -/
def firstResultText (m : List (List Char × Json)) : List Char :=
  let fr0 := match first_non_metadata m with | some v => pyStr v | none => []
  if fr0.isEmpty then completionMsg else fr0

/-- C3, amended.  Synthesis over action results happens exactly in the
generative branch: (1) the rule-proposed-tools branch never consults the
synthesis function — its outcome is invariant under replacing it; (2) that
branch replies with the first non-metadata action result as text (with the
fixed completion fallback); (3) in the generative branch, a pass proposing
at least one action leads to dispatch and a synthesis-pass reply over the
results; (4) a pass proposing none returns its own text as the reply. -/
theorem claim_C3_synthesis_scope :
    (∀ (env : AgentEnv)
       (synth synth' : List Char → List (List Char × Json) → List CtxMsg → List Char)
       (now : Int) (st : AgentState) (rr : RuleResponse),
      rule_tool_branch env synth now st rr = rule_tool_branch env synth' now st rr) ∧
    (∀ (env : AgentEnv)
       (synth : List Char → List (List Char × Json) → List CtxMsg → List Char)
       (now : Int) (st : AgentState) (rr : RuleResponse),
      (rule_tool_branch env synth now st rr).1 =
        .ok (firstResultText (execute_tools env st.context.latest_email_id rr.tool_calls))
          rr.tool_calls (some rr.rule_name)) ∧
    (∀ (env : AgentEnv) (now : Int) (st : AgentState) (text : List Char),
      (process_with_tools env.cfg env.provs env.sysPrompt (get_context st.context) text
          st.context.latest_email_id).tool_calls.isEmpty = false →
      (ai_branch env now st text).1 =
        .ok (generate_final_response env.cfg env.provs text
              (execute_tools env st.context.latest_email_id
                (process_with_tools env.cfg env.provs env.sysPrompt (get_context st.context)
                  text st.context.latest_email_id).tool_calls)
              (get_context (update_email_state_from_results
                (extract_and_store_email_ids st.context
                  (execute_tools env st.context.latest_email_id
                    (process_with_tools env.cfg env.provs env.sysPrompt
                      (get_context st.context) text st.context.latest_email_id).tool_calls))
                (execute_tools env st.context.latest_email_id
                  (process_with_tools env.cfg env.provs env.sysPrompt
                    (get_context st.context) text st.context.latest_email_id).tool_calls))))
          (process_with_tools env.cfg env.provs env.sysPrompt (get_context st.context)
            text st.context.latest_email_id).tool_calls none) ∧
    (∀ (env : AgentEnv) (now : Int) (st : AgentState) (text : List Char),
      (process_with_tools env.cfg env.provs env.sysPrompt (get_context st.context) text
          st.context.latest_email_id).tool_calls.isEmpty = true →
      (ai_branch env now st text).1 =
        .ok (process_with_tools env.cfg env.provs env.sysPrompt (get_context st.context)
              text st.context.latest_email_id).response
          (process_with_tools env.cfg env.provs env.sysPrompt (get_context st.context)
            text st.context.latest_email_id).tool_calls none) := by
  refine ⟨fun _ _ _ _ _ _ => rfl, fun _ _ _ _ _ => rfl, ?_, ?_⟩
  · intro env now st text h
    simp only [ai_branch, h, Bool.not_false, if_true]
  · intro env now st text h
    rw [List.isEmpty_iff] at h
    simp only [ai_branch, h, List.isEmpty_nil, Bool.not_true, Bool.false_eq_true, if_false]

def c3Pwt0 : PWTResult :=
  process_with_tools c3Env.cfg c3Env.provs c3Env.sysPrompt
    (get_context c3State.context) ['h'] c3State.context.latest_email_id

def c3Pwt : PWTResult :=
  process_with_tools c3AiEnv.cfg c3AiEnv.provs c3AiEnv.sysPrompt
    (get_context c3State.context) ['h'] c3State.context.latest_email_id

def c3Mid : List (List Char × Json) :=
  execute_tools c3AiEnv c3State.context.latest_email_id c3Pwt.tool_calls

theorem claim_C3_synthesis_scope_witness :
    (ai_branch c3Env 1 c3State ['h']).1 = .ok c3Pwt0.response c3Pwt0.tool_calls none ∧
    (ai_branch c3AiEnv 1 c3State ['h']).1 =
      .ok (generate_final_response c3AiEnv.cfg c3AiEnv.provs ['h'] c3Mid
            (get_context (update_email_state_from_results
              (extract_and_store_email_ids c3State.context c3Mid) c3Mid)))
        c3Pwt.tool_calls none :=
  ⟨claim_C3_synthesis_scope.2.2.2 c3Env 1 c3State ['h'] (by decide),
   claim_C3_synthesis_scope.2.2.1 c3AiEnv 1 c3State ['h'] (by decide)⟩

end VoiceAgent

namespace VoiceAgent

/-! ### C6: totality of tool-call extraction

Every candidate captured by either pattern starts with an opening brace,
so every `json.loads` success along the repair ladder is an object and the
`"name" in ...` membership tests can never raise `TypeError`; the only
exception ever raised inside `_parse_tool_calls` is `json.JSONDecodeError`,
which its handler catches and routes to the salvage tier. -/

theorem grabA_brace (s cap rest : List Char) (h : grabA s = some (cap, rest)) :
    ∃ u, cap = '{' :: u := by
  unfold grabA at h
  dsimp only at h
  split at h
  · split at h
    · simp only [Option.some.injEq, Prod.mk.injEq] at h
      exact ⟨_, h.1.symm⟩
    · simp only [Option.some.injEq, Prod.mk.injEq] at h
      exact ⟨_, h.1.symm⟩
  · exact absurd h (by simp)

theorem grabB_brace (s cap rest : List Char) (h : grabB s = some (cap, rest)) :
    ∃ u, cap = '{' :: u := by
  unfold grabB at h
  dsimp only at h
  split at h
  · split at h
    · simp only [Option.some.injEq, Prod.mk.injEq] at h
      exact ⟨_, h.1.symm⟩
    · simp only [Option.some.injEq, Prod.mk.injEq] at h
      exact ⟨_, h.1.symm⟩
  · exact absurd h (by simp)

theorem findallTC_brace (grab : List Char → Option (List Char × List Char))
    (hg : ∀ s cap rest, grab s = some (cap, rest) → ∃ u, cap = '{' :: u) :
    ∀ (fuel : Nat) (s m : List Char), m ∈ findallTC grab fuel s → ∃ u, m = '{' :: u := by
  intro fuel
  induction fuel with
  | zero => intro s m hm; simp [findallTC] at hm
  | succ f ih =>
    intro s m hm
    cases s with
    | nil => simp [findallTC] at hm
    | cons c cs =>
      rw [findallTC] at hm
      by_cases hp : toolCallMarker.isPrefixOf (c :: cs) = true
      · rw [if_pos hp] at hm
        cases hgr : grab ((c :: cs).drop 10) with
        | none => rw [hgr] at hm; exact ih cs m hm
        | some p =>
          obtain ⟨cap, rest⟩ := p
          rw [hgr] at hm
          dsimp only at hm
          rcases List.mem_cons.mp hm with h1 | h1
          · rw [h1]; exact hg _ cap rest hgr
          · exact ih rest m h1
      · rw [if_neg hp] at hm; exact ih cs m hm

theorem dedupStrsGo_subset (l : List (List Char)) :
    ∀ (seen : List (List Char)) (m : List Char), m ∈ dedupStrsGo seen l → m ∈ l := by
  induction l with
  | nil => intro seen m hm; simp [dedupStrsGo] at hm
  | cons s rest ih =>
    intro seen m hm
    rw [dedupStrsGo] at hm
    by_cases hs : s ∈ seen
    · rw [if_pos hs] at hm
      exact List.mem_cons_of_mem _ (ih seen m hm)
    · rw [if_neg hs] at hm
      rcases List.mem_cons.mp hm with h1 | h1
      · exact h1 ▸ List.mem_cons_self _ _
      · exact List.mem_cons_of_mem _ (ih (s :: seen) m h1)

theorem tcCandidates_brace (content : List Char) :
    ∀ m ∈ tcCandidates content, ∃ u, m = '{' :: u := by
  intro m hm
  have hm2 := dedupStrsGo_subset _ [] m hm
  rcases List.mem_append.mp hm2 with h1 | h1
  · exact findallTC_brace grabA grabA_brace content.length content m h1
  · exact findallTC_brace grabB grabB_brace content.length content m h1

theorem dropWhile_append_brace (a : List Char) :
    ∃ u, (List.dropWhile isPyWs (a ++ ['{'])).reverse = '{' :: u := by
  induction a with
  | nil => exact ⟨[], rfl⟩
  | cons c a ih =>
    by_cases hc : isPyWs c = true
    · rw [List.cons_append, List.dropWhile_cons, if_pos hc]
      exact ih
    · rw [List.cons_append, List.dropWhile_cons, if_neg hc]
      exact ⟨a.reverse ++ [c], by simp⟩

theorem pstrip_brace (t : List Char) : ∃ u, pstrip ('{' :: t) = '{' :: u := by
  have h1 : List.dropWhile isPyWs ('{' :: t) = '{' :: t := by
    rw [List.dropWhile_cons, if_neg (by decide)]
  unfold pstrip
  rw [h1, List.reverse_cons]
  exact dropWhile_append_brace t.reverse

theorem parseValue_brace_obj (fuel : Nat) (r : List Char) (v : Json) (rest : List Char)
    (h : parseValue fuel ('{' :: r) = some (v, rest)) : ∃ kvs, v = Json.obj kvs := by
  cases fuel with
  | zero => exact absurd h (by simp [parseValue])
  | succ f =>
    rw [parseValue] at h
    rw [if_pos rfl] at h
    cases hb : parseObjBody f (dropJWs r) with
    | none => rw [hb] at h; exact absurd h (by simp)
    | some p =>
      obtain ⟨kvs, rest2⟩ := p
      rw [hb] at h
      dsimp only at h
      simp only [Option.some.injEq, Prod.mk.injEq] at h
      exact ⟨kvs, h.1.symm⟩

theorem loads_brace_obj (t : List Char) (v : Json)
    (h : loads ('{' :: t) = some v) : ∃ kvs, v = Json.obj kvs := by
  unfold loads at h
  have hd : dropJWs ('{' :: t) = '{' :: t := by
    unfold dropJWs
    rw [List.dropWhile_cons, if_neg (by decide)]
  rw [hd] at h
  cases hp : parseValue (4 * ('{' :: t).length + 8) ('{' :: t) with
  | none => rw [hp] at h; exact absurd h (by simp)
  | some p =>
    obtain ⟨v2, rest⟩ := p
    rw [hp] at h
    dsimp only at h
    by_cases he : (dropJWs rest).isEmpty = true
    · rw [if_pos he] at h
      simp only [Option.some.injEq] at h
      obtain ⟨kvs, hk⟩ := parseValue_brace_obj _ t v2 rest hp
      exact ⟨kvs, by rw [← h]; exact hk⟩
    · rw [if_neg he] at h; exact absurd h (by simp)

theorem dumps_obj_brace (kvs : List (List Char × Json)) :
    ∃ u, dumps (Json.obj kvs) = '{' :: u := ⟨_, rfl⟩

theorem manualRecon_brace (o f : List Char) (h : manualRecon o = some f) :
    ∃ u, f = '{' :: u := by
  unfold manualRecon at h
  by_cases hs : isSubstr quotedName o = true
  · rw [if_pos hs] at h
    cases hq : searchQuoted litName true o.length o with
    | none => rw [hq] at h; exact absurd h (by simp)
    | some nm =>
      rw [hq] at h
      dsimp only at h
      simp only [Option.some.injEq] at h
      obtain ⟨u, hu⟩ := dumps_obj_brace
        [(strName, Json.str nm), (strParameters, Json.obj (reconParams o))]
      exact ⟨u, by rw [← h, hu]⟩
  · rw [if_neg hs] at h; exact absurd h (by simp)

theorem fix_json_brace (t f : List Char) (h : fix_json ('{' :: t) = some f) :
    ∃ u, f = '{' :: u := by
  unfold fix_json at h
  obtain ⟨o, ho⟩ := pstrip_brace t
  rw [ho] at h
  dsimp only at h
  cases hb : endsWithChar '}' ('{' :: o) with
  | false =>
    rw [hb] at h
    simp only [Bool.not_false, if_true] at h
    rw [List.cons_append] at h
    cases hl : loads
        ('{' :: (o ++ List.replicate
          (countChar '{' ('{' :: o) - countChar '}' ('{' :: o)) '}')) with
    | none => rw [hl] at h; exact manualRecon_brace ('{' :: o) f h
    | some d =>
      obtain ⟨kvs, hk⟩ := loads_brace_obj _ d hl
      subst hk
      rw [hl] at h
      dsimp only at h
      by_cases hkey : hasKeyTotal (Json.obj kvs) strName = true
      · rw [if_pos hkey] at h
        simp only [Option.some.injEq] at h
        exact ⟨_, h.symm⟩
      · rw [if_neg hkey] at h
        exact manualRecon_brace ('{' :: o) f h
  | true =>
    rw [hb] at h
    simp only [Bool.not_true, Bool.false_eq_true, if_false] at h
    cases hl : loads ('{' :: o) with
    | none => rw [hl] at h; exact manualRecon_brace ('{' :: o) f h
    | some d =>
      obtain ⟨kvs, hk⟩ := loads_brace_obj o d hl
      subst hk
      rw [hl] at h
      dsimp only at h
      by_cases hkey : hasKeyTotal (Json.obj kvs) strName = true
      · rw [if_pos hkey] at h
        simp only [Option.some.injEq] at h
        exact ⟨_, h.symm⟩
      · rw [if_neg hkey] at h
        exact manualRecon_brace ('{' :: o) f h

theorem tryOrigPath_no_typeError (t : List Char)
    (h : tryOrigPath ('{' :: t) = Except.error PyErr.typeError) : False := by
  unfold tryOrigPath at h
  cases hl : loads ('{' :: t) with
  | none => rw [hl] at h; simp at h
  | some d =>
    obtain ⟨kvs, hk⟩ := loads_brace_obj t d hl
    subst hk
    rw [hl] at h
    dsimp only [hasKeyE] at h
    simp at h

theorem tryBody_no_typeError (t : List Char)
    (h : tryBody ('{' :: t) = Except.error PyErr.typeError) : False := by
  unfold tryBody at h
  cases hf : fix_json ('{' :: t) with
  | none => rw [hf] at h; dsimp only at h; exact tryOrigPath_no_typeError t h
  | some f =>
    obtain ⟨u, hu⟩ := fix_json_brace t f hf
    subst hu
    rw [hf] at h
    dsimp only at h
    cases hl : loads ('{' :: u) with
    | none => rw [hl] at h; simp at h
    | some d =>
      obtain ⟨kvs, hk⟩ := loads_brace_obj u d hl
      subst hk
      rw [hl] at h
      dsimp only [hasKeyE] at h
      cases hb2 : hasKeyTotal (Json.obj kvs) strName with
      | true => rw [hb2] at h; simp at h
      | false => rw [hb2] at h; dsimp only at h; exact tryOrigPath_no_typeError t h

theorem processMatchE_eq (m : List Char) (hm : ∃ u, m = '{' :: u) :
    processMatchE m = Except.ok (processMatch m) := by
  obtain ⟨u, hm⟩ := hm
  subst hm
  obtain ⟨w, hw⟩ := pstrip_brace u
  unfold processMatchE processMatch
  rw [hw]
  have hnt := tryBody_no_typeError w
  generalize htb : tryBody ('{' :: w) = x
  rw [htb] at hnt
  cases x with
  | ok r => rfl
  | error e =>
    cases e with
    | decodeError => rfl
    | typeError => exact (hnt rfl).elim

theorem collectMatchesE_eq (l : List (List Char))
    (hl : ∀ m ∈ l, ∃ u, m = '{' :: u) :
    collectMatchesE l = Except.ok (l.filterMap processMatch) := by
  induction l with
  | nil => rfl
  | cons m rest ih =>
    rw [collectMatchesE]
    rw [processMatchE_eq m (hl m (List.mem_cons_self m rest))]
    dsimp only
    rw [ih (fun x hx => hl x (List.mem_cons_of_mem m hx))]
    dsimp only
    rw [List.filterMap_cons]
    cases processMatch m <;> rfl

/-- C6.  Tool-call extraction is total: on every input `_parse_tool_calls`
with exception propagation made explicit returns `Except.ok` of exactly
the list the total extractor computes — the only exception raisable along
the repair ladder is `json.JSONDecodeError`, which is caught and routed to
field salvage, and a candidate from which no tool name is recoverable is
dropped by `filterMap` rather than aborting extraction (instanced by an
unsalvageable fragment yielding the empty list). -/
theorem claim_C6_extraction_total :
    (∀ content : List Char,
      parse_tool_callsE content = Except.ok (parse_tool_calls content)) ∧
    parse_tool_callsE "TOOL_CALL: \x7b???".toList = Except.ok [] ∧
    parse_tool_calls "TOOL_CALL: \x7b???".toList = [] := by
  refine ⟨?_, by rfl, by decide⟩
  intro content
  unfold parse_tool_callsE parse_tool_calls
  rw [collectMatchesE_eq (tcCandidates content) (tcCandidates_brace content)]

end VoiceAgent
